import Mathlib

/-!
Emberfox `lab3.js`: tokenizer, line layout and viewport renderer.

A shallow embedding of `src/lab3.js`.

* JavaScript strings are `String`; `for (let c of body)` walks the characters
  of `body`, here the list `body.data`.
* JavaScript numbers are rationals (`ℚ`); the font size only ever moves in
  whole steps and is an `Int`. The methods are embedded twice. The first
  embedding computes exactly, so `1.2` is `6 / 5`: it is the code wherever every
  intermediate value is a double, and it carries the facts that do not turn on
  the value of a sum or product. The second, `Rounded`, takes the rounding of
  the engine as a parameter, with `roundDouble` for the IEEE doubles, and
  carries the facts that do; `rounded_layout_exact` relates the two.
* The host's canvas (`measureText`, `clearRect`, `fillText`) is a parameter:
  a `Host` gives the measurements, and the drawing calls are collected in a
  trace of `HostCall`s.
* The `await potentialBreakpoint…(…)` calls are observation points of the
  host; they read the data they are handed and change nothing, so the
  embedding passes over them.
-/

namespace Emberfox

/-! ## Tokens and `lex` -/

/-- The two token classes `Text` and `Tag` of `lab3.js`. -/
inductive Token where
  | Text (text : String)
  | Tag (tag : String)
  deriving DecidableEq

/-- The local variables of `lex` that live across loop iterations
(`prev_length` only feeds the breakpoint call). -/
structure LexState where
  out : List Token
  text : String
  in_tag : Bool
  deriving DecidableEq

/-- One iteration of the `for (let c of body)` loop of `lex`. -/
def lexStep (st : LexState) (c : Char) : LexState :=
  if c = '<' then
    { out := if st.text ≠ "" then st.out ++ [Token.Text st.text] else st.out
      text := ""
      in_tag := true }
  else if c = '>' then
    { out := st.out ++ [Token.Tag st.text]
      text := ""
      in_tag := false }
  else
    { st with text := st.text.push c }

/-- The whole loop of `lex`, started from the state `st`. -/
def lexLoop (st : LexState) (cs : List Char) : LexState :=
  cs.foldl lexStep st

/-- The statements of `lex` after the loop: `if (!in_tag && text) out.push(new Text(text))`. -/
def lexFinish (st : LexState) : List Token :=
  if !st.in_tag && decide (st.text ≠ "") then st.out ++ [Token.Text st.text] else st.out

/-- The function `lex(body)`. -/
def lex (body : String) : List Token :=
  lexFinish (lexLoop { out := [], text := "", in_tag := false } body.data)

/-! ## Constants, fonts and the host -/

def WIDTH : ℚ := 800
def HEIGHT : ℚ := 600
def HSTEP : ℚ := 6
def VSTEP : ℚ := 18
def SCROLL_STEP : ℚ := 100

/-- The class `Font`: its three fields. -/
structure Font where
  size : Int
  weight : String
  style : String
  deriving DecidableEq

/-- The method `Font.toString`: the CSS font string handed to the canvas. -/
def Font.toString (f : Font) : String :=
  f.style ++ " " ++ f.weight ++ " " ++ ToString.toString f.size ++ "px sans-serif"

/-- The object returned by `Font.metrics`. -/
structure Metrics where
  ascent : ℚ
  descent : ℚ
  deriving DecidableEq

/-- The measuring side of the host canvas: `measure font text` is
`font.measure(text)` and `metrics font` is `font.metrics()`. -/
structure Host where
  measure : Font → String → ℚ
  metrics : Font → Metrics

/-- An entry of `Layout.line`. -/
structure LineEntry where
  x : ℚ
  word : String
  font : Font
  deriving DecidableEq

/-- An entry of the display list. -/
structure DisplayItem where
  x : ℚ
  y : ℚ
  word : String
  font : Font
  deriving DecidableEq

/-! ## The class `Layout` -/

/-- The fields of a `Layout` object. -/
structure Layout where
  tokens : List Token
  display_list : List DisplayItem
  cursor_x : ℚ
  cursor_y : ℚ
  weight : String
  style : String
  size : Int
  line : List LineEntry
  deriving DecidableEq

/-- The constructor `new Layout(tokens)`. -/
def Layout.new (tokens : List Token) : Layout :=
  { tokens := tokens
    display_list := []
    cursor_x := HSTEP
    cursor_y := VSTEP
    weight := "normal"
    style := "normal"
    size := 16
    line := [] }

/-- Truthiness of a JavaScript array: every array is truthy, the empty one
included, so `!this.line` is `false` whatever the line holds. -/
def arrayTruthy {α : Type} (_ : List α) : Bool := true

/-- The loop `for (let metric of metrics) if (metric.ascent > max_ascent) max_ascent = metric.ascent`,
started from `max_ascent`. -/
def maxAscentLoop (max_ascent : ℚ) (metrics : List Metrics) : ℚ :=
  metrics.foldl (fun acc metric => if metric.ascent > acc then metric.ascent else acc) max_ascent

/-- The loop `for (let metric of metrics) if (metric.descent > max_descent) max_descent = metric.descent`,
started from `max_descent`. -/
def maxDescentLoop (max_descent : ℚ) (metrics : List Metrics) : ℚ :=
  metrics.foldl (fun acc metric => if metric.descent > acc then metric.descent else acc) max_descent

/-- The value of `baseline` in `flush`: `this.cursor_y + 1.2 * max_ascent`. -/
def flushBaseline (h : Host) (s : Layout) : ℚ :=
  s.cursor_y + 6 / 5 * maxAscentLoop 0 (s.line.map (fun entry => h.metrics entry.font))

/-- The method `Layout.flush`. -/
def flush (h : Host) (s : Layout) : Layout :=
  if !arrayTruthy s.line then s
  else
    let metrics := s.line.map (fun entry => h.metrics entry.font)
    let baseline := flushBaseline h s
    let items : List DisplayItem :=
      s.line.map (fun entry => { x := entry.x, y := baseline, word := entry.word, font := entry.font })
    let max_descent := maxDescentLoop 0 metrics
    { s with
      display_list := s.display_list ++ items
      cursor_x := HSTEP
      line := []
      cursor_y := baseline + 6 / 5 * max_descent }

/-- The call `text.split()` of `Layout.text`: `String.prototype.split` without
a separator returns the one-element array holding the whole string. -/
def split (text : String) : List String := [text]

/-- One iteration of the `for (let word of text.split())` loop of `Layout.text`. -/
def textStep (h : Host) (font : Font) (s : Layout) (word : String) : Layout :=
  let w := h.measure font word
  let s1 := if s.cursor_x + w > WIDTH - HSTEP then flush h s else s
  let cursor_x := s1.cursor_x
  let entry : LineEntry := { x := cursor_x, word := word, font := font }
  { s1 with
    line := s1.line ++ [entry]
    cursor_x := s1.cursor_x + (w + h.measure font " ") }

/-- The method `Layout.text`. -/
def text (h : Host) (s : Layout) (t : String) : Layout :=
  let font : Font := { size := s.size, weight := s.weight, style := s.style }
  (split t).foldl (textStep h font) s

/-- The method `Layout.token`. In the `"/p"` branch the source adds `VSTEP`
to `tok.cursor_y`, a property of the token object that nothing reads; the
layout object is left as `flush` left it. -/
def token (h : Host) (s : Layout) (tok : Token) : Layout :=
  match tok with
  | Token.Text t => text h s t
  | Token.Tag tag =>
    if tag = "i" then { s with style := "italic" }
    else if tag = "/i" then { s with style := "normal" }
    else if tag = "b" then { s with weight := "bold" }
    else if tag = "/b" then { s with weight := "normal" }
    else if tag = "small" then { s with size := s.size - 2 }
    else if tag = "/small" then { s with size := s.size + 2 }
    else if tag = "big" then { s with size := s.size + 4 }
    else if tag = "/big" then { s with size := s.size - 4 }
    else if tag = "br" then flush h s
    else if tag = "/p" then flush h s
    else s

/-- The loop of `Layout.layout`: every token of `toks` dispatched in order. -/
def dispatchAll (h : Host) (s : Layout) (toks : List Token) : Layout :=
  toks.foldl (token h) s

/-- The method `Layout.layout`: dispatch `this.tokens`, flush, return the display list. -/
def Layout.layout (h : Host) (s : Layout) : List DisplayItem :=
  (flush h (dispatchAll h s s.tokens)).display_list

/-- The pipeline `new Layout(tokens).layout()` of `Browser.load`. -/
def layout (h : Host) (tokens : List Token) : List DisplayItem :=
  (Layout.new tokens).layout h

/-- A layout state is reachable when dispatching some tokens from a fresh
`Layout` object leads to it. -/
def Reachable (h : Host) (s : Layout) : Prop :=
  ∃ tokens toks : List Token, s = dispatchAll h (Layout.new tokens) toks

/-! ## The class `Browser` -/

/-- A call on the host's drawing context: `clearRect(x, y, w, h)`, or
`fillText(text, x, y)` made while `canvasContext.font` holds `font`. -/
inductive HostCall where
  | clearRect (x y w h : ℚ)
  | fillText (font : String) (text : String) (x y : ℚ)
  deriving DecidableEq

/-- The fields of a `Browser` object that the methods read: the size of the
canvas element, the display list (`none` while the property is still
undefined, before the first `load`) and the scroll offset. -/
structure Browser where
  canvas_width : ℚ
  canvas_height : ℚ
  display_list : Option (List DisplayItem)
  scroll : ℚ
  deriving DecidableEq

/-- The constructor `new Browser(canvasElement)`, for a canvas of the given size. -/
def Browser.new (width height : ℚ) : Browser :=
  { canvas_width := width, canvas_height := height, display_list := none, scroll := 0 }

/-- The method `Browser.clearCanvas`. -/
def Browser.clearCanvas (b : Browser) : List HostCall :=
  [HostCall.clearRect 0 0 b.canvas_width b.canvas_height]

/-- The loop of `Browser.render` over a display list, at scroll offset `scroll`. -/
def renderLoop (h : Host) (scroll : ℚ) : List DisplayItem → List HostCall
  | [] => []
  | entry :: rest =>
    if entry.y > scroll + HEIGHT then renderLoop h scroll rest
    else
      let metrics := h.metrics entry.font
      let line_height := metrics.ascent + metrics.descent
      if entry.y + line_height < scroll then renderLoop h scroll rest
      else
        HostCall.fillText entry.font.toString entry.word entry.x (entry.y - scroll)
          :: renderLoop h scroll rest

/-- The method `Browser.render`: the host calls it makes. Iterating an
undefined `display_list` throws before any call is made. -/
def Browser.render (h : Host) (b : Browser) : Except String (List HostCall) :=
  match b.display_list with
  | none => Except.error "TypeError: this.display_list is not iterable"
  | some display_list => Except.ok (renderLoop h b.scroll display_list)

/-- The host calls of a render pass, none when it threw. -/
def renderTrace (h : Host) (b : Browser) : List HostCall :=
  match b.render h with
  | Except.ok calls => calls
  | Except.error _ => []

/-- The method `Browser.load`: the browser afterwards and the host calls made. -/
def Browser.load (h : Host) (b : Browser) (body : String) : Browser × List HostCall :=
  let cleared := b.clearCanvas
  let tokens := lex body
  let b1 := { b with display_list := some (layout h tokens) }
  (b1, cleared ++ renderTrace h b1)

/-- The method `Browser.scrolldown`: the browser afterwards and the host calls made. -/
def Browser.scrolldown (h : Host) (b : Browser) : Browser × List HostCall :=
  let b1 := { b with scroll := b.scroll + SCROLL_STEP }
  (b1, renderTrace h b1)

/-! ## The class `Layout` under the engine's rounding

The engine computes in IEEE doubles: every `+`, `-` and `*` returns the exact
result rounded to a double, and the literal `1.2` is the double nearest to
`6 / 5`. In `Rounded` the methods of `Layout` take that rounding as the
parameter `fl`, so that `a + b` of the source is `fl (a + b)` and `1.2` is
`fl (6 / 5)`; comparisons are exact. `roundDouble` is the rounding of the
doubles, and `fl := fun x => x` gives back the exact methods above. Numbers are
finite throughout: hosts return no `NaN` or infinity and no operation overflows.

The state carries one ghost field, `flushes`, which records what each call of
`flush` appends to the display list. -/

/-- The integer nearest to `q`, the even one of the two when `q` lies half way. -/
def roundHalfEven (q : ℚ) : ℤ :=
  if q - ⌊q⌋ < 1 / 2 then ⌊q⌋
  else if 1 / 2 < q - ⌊q⌋ then ⌊q⌋ + 1
  else if ⌊q⌋ % 2 = 0 then ⌊q⌋
  else ⌊q⌋ + 1

/-- The double nearest to `q`, ties to the even significand: `q` is scaled so
that its significand has 53 bits (fewer below `2 ^ (-1022)`), rounded to an
integer and scaled back. -/
def roundDouble (q : ℚ) : ℚ :=
  if q = 0 then 0
  else
    (roundHalfEven (q / 2 ^ max (Int.log 2 |q| - 52) (-1074)) : ℚ)
      * 2 ^ max (Int.log 2 |q| - 52) (-1074)

namespace Rounded

/-- The fields of a `Layout` object, and the ghost field `flushes`: the items
that each call of `flush` appended to the display list, one list per call, in
call order. No method reads `flushes`. -/
structure Layout where
  tokens : List Token
  display_list : List DisplayItem
  cursor_x : ℚ
  cursor_y : ℚ
  weight : String
  style : String
  size : Int
  line : List LineEntry
  flushes : List (List DisplayItem)

/-- The constructor `new Layout(tokens)`. -/
def Layout.new (tokens : List Token) : Layout :=
  { tokens := tokens
    display_list := []
    cursor_x := HSTEP
    cursor_y := VSTEP
    weight := "normal"
    style := "normal"
    size := 16
    line := []
    flushes := [] }

/-- The value of `baseline` in `flush`: `this.cursor_y + 1.2 * max_ascent`, the
literal, the product and the sum rounded. -/
def flushBaseline (fl : ℚ → ℚ) (h : Host) (s : Layout) : ℚ :=
  fl (s.cursor_y
    + fl (fl (6 / 5) * maxAscentLoop 0 (s.line.map (fun entry => h.metrics entry.font))))

/-- The method `Layout.flush`. -/
def flush (fl : ℚ → ℚ) (h : Host) (s : Layout) : Layout :=
  if !arrayTruthy s.line then s
  else
    let metrics := s.line.map (fun entry => h.metrics entry.font)
    let baseline := flushBaseline fl h s
    let items : List DisplayItem :=
      s.line.map (fun entry => { x := entry.x, y := baseline, word := entry.word, font := entry.font })
    let max_descent := maxDescentLoop 0 metrics
    { s with
      display_list := s.display_list ++ items
      flushes := s.flushes ++ [items]
      cursor_x := HSTEP
      line := []
      cursor_y := fl (baseline + fl (fl (6 / 5) * max_descent)) }

/-- One iteration of the `for (let word of text.split())` loop of `Layout.text`. -/
def textStep (fl : ℚ → ℚ) (h : Host) (font : Font) (s : Layout) (word : String) : Layout :=
  let w := h.measure font word
  let s1 := if fl (s.cursor_x + w) > fl (WIDTH - HSTEP) then flush fl h s else s
  let cursor_x := s1.cursor_x
  let entry : LineEntry := { x := cursor_x, word := word, font := font }
  { s1 with
    line := s1.line ++ [entry]
    cursor_x := fl (s1.cursor_x + fl (w + h.measure font " ")) }

/-- The method `Layout.text`. -/
def text (fl : ℚ → ℚ) (h : Host) (s : Layout) (t : String) : Layout :=
  let font : Font := { size := s.size, weight := s.weight, style := s.style }
  (split t).foldl (textStep fl h font) s

/-- The method `Layout.token`; the font sizes are whole numbers, which the
doubles hold exactly. In the `"/p"` branch the source adds `VSTEP` to
`tok.cursor_y`, a property of the token object that nothing reads. -/
def token (fl : ℚ → ℚ) (h : Host) (s : Layout) (tok : Token) : Layout :=
  match tok with
  | Token.Text t => text fl h s t
  | Token.Tag tag =>
    if tag = "i" then { s with style := "italic" }
    else if tag = "/i" then { s with style := "normal" }
    else if tag = "b" then { s with weight := "bold" }
    else if tag = "/b" then { s with weight := "normal" }
    else if tag = "small" then { s with size := s.size - 2 }
    else if tag = "/small" then { s with size := s.size + 2 }
    else if tag = "big" then { s with size := s.size + 4 }
    else if tag = "/big" then { s with size := s.size - 4 }
    else if tag = "br" then flush fl h s
    else if tag = "/p" then flush fl h s
    else s

/-- The loop of `Layout.layout`: every token of `toks` dispatched in order. -/
def dispatchAll (fl : ℚ → ℚ) (h : Host) (s : Layout) (toks : List Token) : Layout :=
  toks.foldl (token fl h) s

/-- The layout object when `Layout.layout` returns: `this.tokens` dispatched, then `flush`. -/
def Layout.run (fl : ℚ → ℚ) (h : Host) (s : Layout) : Layout :=
  flush fl h (dispatchAll fl h s s.tokens)

/-- The pipeline `new Layout(tokens).layout()` of `Browser.load`: the display list returned. -/
def layout (fl : ℚ → ℚ) (h : Host) (tokens : List Token) : List DisplayItem :=
  ((Layout.new tokens).run fl h).display_list

/-- The lines of `new Layout(tokens).layout()`: what each call of `flush` made
during the run appended to the display list, in call order. -/
def flushedLines (fl : ℚ → ℚ) (h : Host) (tokens : List Token) : List (List DisplayItem) :=
  ((Layout.new tokens).run fl h).flushes

/-- The layout object without its ghost field. -/
def Layout.erase (s : Layout) : Emberfox.Layout :=
  { tokens := s.tokens
    display_list := s.display_list
    cursor_x := s.cursor_x
    cursor_y := s.cursor_y
    weight := s.weight
    style := s.style
    size := s.size
    line := s.line }

/-- Item `b` stands one word and one space to the right of item `a`, both
measured in the font of `a` and added as `Layout.text` adds them. -/
def advances (fl : ℚ → ℚ) (h : Host) (a b : DisplayItem) : Prop :=
  b.x = fl (a.x + fl (h.measure a.font a.word + h.measure a.font " "))

/-- The line of `s` is laid out left to right from `HSTEP`: an empty line goes
with `cursor_x = HSTEP`, the first entry stands at `HSTEP`, each entry stands
one word and one space after the one before it, `cursor_x` stands one word and
one space after the last entry, and every entry but the first passed the
overflow test of `Layout.text`. -/
def lineInv (fl : ℚ → ℚ) (h : Host) (s : Layout) : Prop :=
  (s.line = [] → s.cursor_x = HSTEP)
    ∧ (∀ e ∈ s.line.head?, e.x = HSTEP)
    ∧ s.line.Chain' (fun a b =>
        b.x = fl (a.x + fl (h.measure a.font a.word + h.measure a.font " ")))
    ∧ (∀ e ∈ s.line.getLast?,
        s.cursor_x = fl (e.x + fl (h.measure e.font e.word + h.measure e.font " ")))
    ∧ (∀ e ∈ s.line.tail, fl (e.x + h.measure e.font e.word) ≤ fl (WIDTH - HSTEP))

/-- Every line flushed so far is laid out left to right from `HSTEP`, and the
display list is these lines one after the other. -/
def linesInv (fl : ℚ → ℚ) (h : Host) (s : Layout) : Prop :=
  s.display_list = s.flushes.flatten
    ∧ ∀ line ∈ s.flushes,
        line.Chain' (advances fl h)
          ∧ (∀ it ∈ line.head?, it.x = HSTEP)
          ∧ ∀ it ∈ line.tail, fl (it.x + h.measure it.font it.word) ≤ fl (WIDTH - HSTEP)

end Rounded

/-! ## Vocabulary of the specification -/

/-- The string a token list stands for: `Text(t)` written as `t`, `Tag(n)` as `<n>`. -/
def serialize : List Token → String
  | [] => ""
  | Token.Text t :: rest => t ++ serialize rest
  | Token.Tag n :: rest => "<" ++ n ++ ">" ++ serialize rest

/-- The content of a token: the text of a `Text`, the name of a `Tag`. -/
def Token.content : Token → String
  | Token.Text t => t
  | Token.Tag n => n

/-- Whether a token is a `Text`. -/
def Token.isText : Token → Bool
  | Token.Text _ => true
  | Token.Tag _ => false

/-- A string has no angle bracket. -/
def noAngle (t : String) : Prop := ∀ c ∈ t.data, c ≠ '<' ∧ c ≠ '>'

instance (t : String) : Decidable (noAngle t) := by
  unfold noAngle; infer_instance

/-- An input ends inside an unterminated tag when its last angle bracket is a `<`. -/
def endsInTag (body : String) : Bool :=
  body.data.foldl (fun inside c => if c = '<' then true else if c = '>' then false else inside) false

/-- The largest number of a list, `d` for the empty list. -/
def maxOf (d : ℚ) : List ℚ → ℚ
  | [] => d
  | a :: rest => rest.foldl max a

/-- The ascents of the fonts of the entries of a line, under the host's metrics. -/
def lineAscents (h : Host) (line : List LineEntry) : List ℚ :=
  line.map (fun entry => (h.metrics entry.font).ascent)

/-- A host whose fonts all have ascent -5 (and descent 5). -/
def sunkHost : Host :=
  { measure := fun _ t => 8 * (t.length : ℚ)
    metrics := fun _ => { ascent := -5, descent := 5 } }

/-- A host with tall fonts: ascent 100, descent 20. -/
def tallHost : Host :=
  { measure := fun _ _ => 10
    metrics := fun _ => { ascent := 100, descent := 20 } }

/-! ## Auxiliary definitions and sample inputs -/

/-- The `Text` token that a pending `text` becomes when it is pushed. -/
def pendingText (text : String) : List Token :=
  if text ≠ "" then [Token.Text text] else []

/-- The characters of the contents of a token list, in order. -/
def contentChars (toks : List Token) : List Char :=
  (toks.map (fun tok => tok.content.data)).flatten

/-- The words a layout state holds: those of the display list, then those of the line. -/
def heldWords (s : Layout) : List String :=
  s.display_list.map (fun it => it.word) ++ s.line.map (fun entry => entry.word)

/-- The text a token adds to the words of the layout: the whole text of a
`Text`, nothing for a `Tag`. -/
def Token.wordsAdded : Token → List String
  | Token.Text t => [t]
  | Token.Tag _ => []

/-- The font of a fresh layout: size 16, normal weight, normal style. -/
def plainFont : Font := { size := 16, weight := "normal", style := "normal" }

/-- A host that measures every text 1000 wide. -/
def wideHost : Host :=
  { measure := fun _ _ => 1000
    metrics := fun _ => { ascent := 10, descent := 5 } }

/-- The tag names that `Layout.token` compares `tok.tag` with. -/
def knownTags : List String :=
  ["i", "/i", "b", "/b", "small", "/small", "big", "/big", "br", "/p"]

/-- A token is an unknown tag when it is a `Tag` whose name is none of `knownTags`. -/
def Token.isUnknownTag : Token → Bool
  | Token.Text _ => false
  | Token.Tag name => decide (name ∉ knownTags)

/-- The font of size 16 in bold. -/
def boldFont : Font := { size := 16, weight := "bold", style := "normal" }

/-- The font of size 16 in italic. -/
def italicFont : Font := { size := 16, weight := "normal", style := "italic" }

/-- The runs `(font, text)` fit on one line that starts at `x`: each run, placed
one space after the one before it, ends at or before `WIDTH - HSTEP`. -/
def fitsFrom (h : Host) : ℚ → List (Font × String) → Prop
  | _, [] => True
  | x, (font, word) :: rest =>
    x + h.measure font word ≤ WIDTH - HSTEP
      ∧ fitsFrom h (x + (h.measure font word + h.measure font " ")) rest

/-- A host that measures every text 10 wide, with ascent 10 and descent 5. -/
def narrowHost : Host :=
  { measure := fun _ _ => 10
    metrics := fun _ => { ascent := 10, descent := 5 } }

/-- The display list of `s` runs top to bottom: its `y` values never decrease
along the list, and each lies between `VSTEP` and the current `cursor_y`. -/
def topToBottom (s : Layout) : Prop :=
  s.display_list.Pairwise (fun a b => a.y ≤ b.y)
    ∧ (∀ it ∈ s.display_list, VSTEP ≤ it.y ∧ it.y ≤ s.cursor_y)
    ∧ VSTEP ≤ s.cursor_y

/-- The tokens of `<b>Bold</b> and <i>italic</i>`. -/
def boldAndItalic : List Token :=
  [Token.Tag "b", Token.Text "Bold", Token.Tag "/b", Token.Text " and ", Token.Tag "i",
   Token.Text "italic", Token.Tag "/i"]

/-- A host whose fonts all have ascent 9 and descent 3. -/
def nineHost : Host :=
  { measure := fun _ _ => 10
    metrics := fun _ => { ascent := 9, descent := 3 } }

/-- A fresh layout whose line holds the one word `hi` at `x = HSTEP`. -/
def oneWordState : Rounded.Layout :=
  { Rounded.Layout.new [] with
    line := [{ x := HSTEP, word := "hi", font := plainFont }]
    cursor_x := 30 }

/-- A host that measures every character 50 wide, with ascent 10 and descent 5. -/
def fiftyHost : Host :=
  { measure := fun _ t => 50 * (t.length : ℚ)
    metrics := fun _ => { ascent := 10, descent := 5 } }

/-! ## Facts about `flush` -/

theorem flush_eq (h : Host) (s : Layout) :
    flush h s =
      { s with
        display_list := s.display_list ++ s.line.map (fun entry =>
          ({ x := entry.x, y := flushBaseline h s, word := entry.word, font := entry.font } : DisplayItem))
        cursor_x := HSTEP
        line := []
        cursor_y := flushBaseline h s
          + 6 / 5 * maxDescentLoop 0 (s.line.map (fun entry => h.metrics entry.font)) } := by
  simp [flush, arrayTruthy]

@[simp] theorem flush_display_list (h : Host) (s : Layout) :
    (flush h s).display_list = s.display_list ++ s.line.map (fun entry =>
      ({ x := entry.x, y := flushBaseline h s, word := entry.word, font := entry.font } : DisplayItem)) := by
  rw [flush_eq]

@[simp] theorem flush_line (h : Host) (s : Layout) : (flush h s).line = [] := by
  rw [flush_eq]

@[simp] theorem flush_cursor_x (h : Host) (s : Layout) : (flush h s).cursor_x = HSTEP := by
  rw [flush_eq]

@[simp] theorem flush_cursor_y (h : Host) (s : Layout) :
    (flush h s).cursor_y = flushBaseline h s
      + 6 / 5 * maxDescentLoop 0 (s.line.map (fun entry => h.metrics entry.font)) := by
  rw [flush_eq]

@[simp] theorem flush_size (h : Host) (s : Layout) : (flush h s).size = s.size := by
  rw [flush_eq]

@[simp] theorem flush_weight (h : Host) (s : Layout) : (flush h s).weight = s.weight := by
  rw [flush_eq]

@[simp] theorem flush_style (h : Host) (s : Layout) : (flush h s).style = s.style := by
  rw [flush_eq]

@[simp] theorem flush_tokens (h : Host) (s : Layout) : (flush h s).tokens = s.tokens := by
  rw [flush_eq]

/-! ## Facts about `lex` -/

theorem lexLoop_cons (st : LexState) (c : Char) (cs : List Char) :
    lexLoop st (c :: cs) = lexLoop (lexStep st c) cs := rfl

theorem lexLoop_append (st : LexState) (cs ds : List Char) :
    lexLoop st (cs ++ ds) = lexLoop (lexLoop st cs) ds := by
  simp [lexLoop, List.foldl_append]

/-- Characters other than angle brackets pile up in `text` and change nothing else. -/
theorem lexLoop_plain (st : LexState) (cs : List Char) (hcs : ∀ c ∈ cs, c ≠ '<' ∧ c ≠ '>') :
    lexLoop st cs = { st with text := st.text ++ String.mk cs } := by
  induction cs generalizing st with
  | nil =>
    have : st.text ++ String.mk [] = st.text := String.ext (by simp)
    simp [lexLoop, this]
  | cons c cs ih =>
    have hc := hcs c (by simp)
    rw [lexLoop_cons, ih _ (fun d hd => hcs d (by simp [hd]))]
    simp only [lexStep, hc.1, hc.2, if_false]
    congr 1
    exact String.ext (by simp)

/-- The flag `in_tag` after the loop only depends on the last angle bracket read. -/
theorem lexLoop_in_tag (st : LexState) (cs : List Char) :
    (lexLoop st cs).in_tag
      = cs.foldl (fun inside c => if c = '<' then true else if c = '>' then false else inside)
          st.in_tag := by
  induction cs generalizing st with
  | nil => rfl
  | cons c cs ih =>
    rw [lexLoop_cons, ih, List.foldl_cons]
    congr 1
    unfold lexStep
    split_ifs <;> rfl

theorem lexStep_lt (st : LexState) :
    lexStep st '<' = { out := st.out ++ pendingText st.text, text := "", in_tag := true } := by
  unfold lexStep pendingText
  by_cases ht : st.text = "" <;> simp [ht]

theorem lexStep_gt (st : LexState) :
    lexStep st '>' = { out := st.out ++ [Token.Tag st.text], text := "", in_tag := false } := by
  simp [lexStep]

theorem lexFinish_text (out : List Token) (text : String) :
    lexFinish { out := out, text := text, in_tag := false } = out ++ pendingText text := by
  unfold lexFinish pendingText
  by_cases ht : text = "" <;> simp [ht]

theorem lexFinish_tag (out : List Token) (text : String) :
    lexFinish { out := out, text := text, in_tag := true } = out := by
  simp [lexFinish]

theorem serialize_text_data (t : String) (rest : List Token) :
    (serialize (Token.Text t :: rest)).data = t.data ++ (serialize rest).data := by
  simp [serialize]

theorem serialize_tag_data (n : String) (rest : List Token) :
    (serialize (Token.Tag n :: rest)).data = '<' :: (n.data ++ '>' :: (serialize rest).data) := by
  simp [serialize]

/-- Reading the serialisation of a well-formed token list from a state outside
a tag appends the pending text, if any, and then the token list itself. -/
theorem lexFinish_lexLoop_serialize (toks : List Token)
    (hAngle : ∀ tok ∈ toks, noAngle tok.content)
    (hText : ∀ tok ∈ toks, tok.isText = true → tok.content ≠ "")
    (hAdj : toks.Chain' (fun a b => ¬ (a.isText = true ∧ b.isText = true)))
    (out : List Token) (text : String)
    (hStart : text = "" ∨ ∀ tok ∈ toks.head?, tok.isText = false) :
    lexFinish (lexLoop { out := out, text := text, in_tag := false } (serialize toks).data)
      = out ++ pendingText text ++ toks := by
  induction toks generalizing out text with
  | nil => simp [serialize, lexLoop, lexFinish_text]
  | cons tok rest ih =>
    have hAngle' : ∀ tok ∈ rest, noAngle tok.content := fun x hx => hAngle x (by simp [hx])
    have hText' : ∀ tok ∈ rest, tok.isText = true → tok.content ≠ "" :=
      fun x hx => hText x (by simp [hx])
    have hAdj' := hAdj.tail
    cases tok with
    | Text t =>
      have htext : text = "" := by
        rcases hStart with h | h
        · exact h
        · simp [Token.isText] at h
      subst htext
      have ht : t ≠ "" := hText (Token.Text t) (by simp) rfl
      have hrest : ∀ x ∈ rest.head?, x.isText = false := by
        intro x hx
        cases rest with
        | nil => simp at hx
        | cons y ys =>
          simp only [List.head?_cons, Option.mem_def, Option.some.injEq] at hx
          subst hx
          have := hAdj.rel_head
          simpa [Token.isText] using this
      have hplain := lexLoop_plain { out := out, text := "", in_tag := false } t.data
        (hAngle (Token.Text t) (by simp))
      have hcat : ("" : String) ++ String.mk t.data = t := String.ext (by simp)
      rw [serialize_text_data, lexLoop_append, hplain]
      simp only [hcat]
      rw [ih hAngle' hText' hAdj' out t (Or.inr hrest)]
      simp [pendingText, ht]
    | Tag n =>
      have hplain := lexLoop_plain
        { out := out ++ pendingText text, text := "", in_tag := true } n.data
        (hAngle (Token.Tag n) (by simp))
      have hcat : ("" : String) ++ String.mk n.data = n := String.ext (by simp)
      rw [serialize_tag_data, lexLoop_cons, lexStep_lt, lexLoop_append, hplain, lexLoop_cons,
        lexStep_gt]
      simp only [hcat]
      rw [ih hAngle' hText' hAdj' _ "" (Or.inl rfl)]
      simp [pendingText]

/-- C5: `lex` undoes serialisation. For every token list in which no content
holds `<` or `>`, every `Text` content is non-empty and no two `Text` tokens
are adjacent, `lex` of the string that writes `Text(t)` as `t` and `Tag(n)` as
`<n>` returns exactly that token list. -/
theorem lex_serialize (toks : List Token)
    (hAngle : ∀ tok ∈ toks, noAngle tok.content)
    (hText : ∀ tok ∈ toks, tok.isText = true → tok.content ≠ "")
    (hAdj : toks.Chain' (fun a b => ¬ (a.isText = true ∧ b.isText = true))) :
    lex (serialize toks) = toks := by
  have h := lexFinish_lexLoop_serialize toks hAngle hText hAdj [] "" (Or.inl rfl)
  simpa [lex, pendingText] using h

/-- C5 at `[Tag("b"), Text("hi"), Tag("/b")]`, whose serialisation is `<b>hi</b>`. -/
theorem lex_serialize_witness :
    serialize [Token.Tag "b", Token.Text "hi", Token.Tag "/b"] = "<b>hi</b>"
      ∧ lex "<b>hi</b>" = [Token.Tag "b", Token.Text "hi", Token.Tag "/b"] := by
  have hser : serialize [Token.Tag "b", Token.Text "hi", Token.Tag "/b"] = "<b>hi</b>" := by
    decide
  refine ⟨hser, ?_⟩
  rw [← hser]
  exact lex_serialize [Token.Tag "b", Token.Text "hi", Token.Tag "/b"]
    (by decide) (by decide) (by simp [Token.isText])

/-- C6: an unterminated tag is dropped. For every input `s` that does not
itself end inside an unterminated tag and every `t` holding neither `<` nor
`>`, `lex(s + "<" + t) = lex(s)`. -/
theorem lex_unterminated (s t : String) (hs : endsInTag s = false) (ht : noAngle t) :
    lex (s ++ "<" ++ t) = lex s := by
  have hflag : (lexLoop { out := [], text := "", in_tag := false } s.data).in_tag = false := by
    rw [lexLoop_in_tag]; exact hs
  have hdata : (s ++ "<" ++ t).data = s.data ++ '<' :: t.data := by simp
  have hplain := lexLoop_plain
    (lexStep (lexLoop { out := [], text := "", in_tag := false } s.data) '<') t.data ht
  unfold lex
  rw [hdata, lexLoop_append, lexLoop_cons, hplain, lexStep_lt]
  generalize lexLoop { out := [], text := "", in_tag := false } s.data = r at hflag ⊢
  obtain ⟨out, text, flag⟩ := r
  simp only at hflag
  subst hflag
  rw [lexFinish_tag, lexFinish_text]

/-- C6 at `s = "ok"`, `t = "b"`: `lex("ok<b") = [Text("ok")]`. -/
theorem lex_unterminated_witness :
    endsInTag "ok" = false ∧ noAngle "b" ∧ lex "ok<b" = [Token.Text "ok"] := by
  have h := lex_unterminated "ok" "b" (by decide) (by decide)
  have hcat : ("ok" : String) ++ "<" ++ "b" = "ok<b" := by decide
  have hok : lex "ok" = [Token.Text "ok"] := by decide
  rw [hcat, hok] at h
  exact ⟨by decide, by decide, h⟩

theorem contentChars_append (xs ys : List Token) :
    contentChars (xs ++ ys) = contentChars xs ++ contentChars ys := by
  simp [contentChars]

theorem contentChars_pendingText (text : String) :
    contentChars (pendingText text) = text.data := by
  unfold pendingText
  by_cases ht : text = ""
  · simp [ht, contentChars]
  · simp [ht, contentChars, Token.content]

/-- Every character read by the loop of `lex`, angle brackets apart, is kept in
order in the contents of `out` followed by `text`. -/
theorem lexLoop_contentChars (st : LexState) (cs : List Char) :
    contentChars (lexLoop st cs).out ++ (lexLoop st cs).text.data
      = contentChars st.out ++ st.text.data
          ++ cs.filter (fun c => decide (c ≠ '<' ∧ c ≠ '>')) := by
  induction cs generalizing st with
  | nil => simp [lexLoop]
  | cons c cs ih =>
    rw [lexLoop_cons, ih]
    by_cases h1 : c = '<'
    · subst h1
      rw [lexStep_lt]
      simp [contentChars_append, contentChars_pendingText]
    · by_cases h2 : c = '>'
      · subst h2
        rw [lexStep_gt]
        simp [contentChars_append, contentChars, Token.content]
      · simp [lexStep, h1, h2]

/-- C7: `lex` skips and transforms no character. For every input that does not
end inside an unterminated tag, the contents of the tokens returned by `lex`,
concatenated in order, are the input with every `<` and `>` removed. -/
theorem lex_contents (s : String) (hs : endsInTag s = false) :
    String.join ((lex s).map Token.content)
      = String.mk (s.data.filter (fun c => decide (c ≠ '<' ∧ c ≠ '>'))) := by
  have hflag : (lexLoop { out := [], text := "", in_tag := false } s.data).in_tag = false := by
    rw [lexLoop_in_tag]; exact hs
  have hinv := lexLoop_contentChars { out := [], text := "", in_tag := false } s.data
  apply String.ext
  rw [String.data_join]
  unfold lex
  generalize lexLoop { out := [], text := "", in_tag := false } s.data = r at hflag hinv ⊢
  obtain ⟨out, text, flag⟩ := r
  simp only at hflag
  subst hflag
  rw [lexFinish_text]
  have hmap : ∀ toks : List Token,
      (List.map String.data (List.map Token.content toks)).flatten = contentChars toks := by
    intro toks; simp [contentChars, List.map_map, Function.comp_def]
  rw [hmap, contentChars_append, contentChars_pendingText]
  simpa [contentChars] using hinv

/-- C7 at `<b>hi</b>`: the contents `b`, `hi`, `/b` spell the input without its brackets. -/
theorem lex_contents_witness :
    endsInTag "<b>hi</b>" = false
      ∧ String.join ((lex "<b>hi</b>").map Token.content) = "bhi/b" := by
  have h := lex_contents "<b>hi</b>" (by decide)
  have hfilter : String.mk ("<b>hi</b>".data.filter (fun c => decide (c ≠ '<' ∧ c ≠ '>')))
      = "bhi/b" := by decide
  rw [hfilter] at h
  exact ⟨by decide, h⟩

/-! ## Facts about `Layout.text` and `Layout.token` -/

theorem heldWords_flush (h : Host) (s : Layout) : heldWords (flush h s) = heldWords s := by
  simp [heldWords, Function.comp_def]

theorem heldWords_textStep (h : Host) (font : Font) (s : Layout) (word : String) :
    heldWords (textStep h font s word) = heldWords s ++ [word] := by
  unfold textStep
  by_cases hover : s.cursor_x + h.measure font word > WIDTH - HSTEP
  · have := heldWords_flush h s
    simp only [hover, if_true]
    simp only [heldWords] at this ⊢
    simp only [List.map_append, List.map_cons, List.map_nil, ← List.append_assoc, this]
  · simp [hover, heldWords]

theorem text_eq (h : Host) (s : Layout) (t : String) :
    text h s t = textStep h { size := s.size, weight := s.weight, style := s.style } s t := rfl

theorem heldWords_token (h : Host) (s : Layout) (tok : Token) :
    heldWords (token h s tok) = heldWords s ++ tok.wordsAdded := by
  cases tok with
  | Text t => simp [token, text_eq, heldWords_textStep, Token.wordsAdded]
  | Tag tag =>
    simp only [token, Token.wordsAdded, List.append_nil]
    split_ifs <;> first | rfl | exact heldWords_flush h s

theorem heldWords_dispatchAll (h : Host) (s : Layout) (toks : List Token) :
    heldWords (dispatchAll h s toks) = heldWords s ++ (toks.map Token.wordsAdded).flatten := by
  induction toks generalizing s with
  | nil => simp [dispatchAll]
  | cons tok rest ih =>
    have hstep : dispatchAll h s (tok :: rest) = dispatchAll h (token h s tok) rest := rfl
    rw [hstep, ih, heldWords_token]
    simp

/-- The words of the display list returned by `layout` are the whole texts of
the `Text` tokens, one word per token, unsplit. -/
theorem layout_words (h : Host) (toks : List Token) :
    (layout h toks).map (fun it => it.word) = (toks.map Token.wordsAdded).flatten := by
  have h1 := heldWords_flush h (dispatchAll h (Layout.new toks) toks)
  rw [heldWords_dispatchAll] at h1
  simpa [heldWords, layout, Layout.layout, Layout.new] using h1

/-- C1: on the token list `[Text(" and ")]` the display list returned by
`layout` holds the single word `" and "`, blanks included, for every host:
`text.split()` returns the whole text as its only fragment. -/
theorem layout_text_unsplit (h : Host) :
    (layout h [Token.Text " and "]).map (fun it => it.word) = [" and "] := by
  rw [layout_words]; rfl

/-- C2: dispatching `Tag("/p")` leaves the layout in the very state that
dispatching `Tag("br")` leaves it in, `cursor_y` included: the `VSTEP` of the
`"/p"` branch is added to `tok.cursor_y`, not to the layout. -/
theorem token_p_eq_br (h : Host) (s : Layout) :
    token h s (Token.Tag "/p") = token h s (Token.Tag "br") := by
  simp [token]

/-! ## Facts about the baseline -/

theorem foldl_max_max (b a : ℚ) (l : List ℚ) :
    l.foldl max (max b a) = max b (l.foldl max a) := by
  induction l generalizing a with
  | nil => rfl
  | cons c l ih => rw [List.foldl_cons, List.foldl_cons, max_assoc, ih]

/-- The loop for `max_ascent` computes a running maximum from its start value. -/
theorem maxAscentLoop_eq (a : ℚ) (metrics : List Metrics) :
    maxAscentLoop a metrics = (metrics.map (fun metric => metric.ascent)).foldl max a := by
  induction metrics generalizing a with
  | nil => rfl
  | cons m ms ih =>
    have hstep : maxAscentLoop a (m :: ms)
        = maxAscentLoop (if m.ascent > a then m.ascent else a) ms := rfl
    rw [hstep, ih, List.map_cons, List.foldl_cons]
    congr 1
    by_cases hm : m.ascent > a
    · rw [if_pos hm, max_eq_right (le_of_lt hm)]
    · rw [if_neg hm, max_eq_left (not_lt.mp hm)]

/-- Started from 0, the loop for `max_ascent` gives the larger of 0 and the
largest ascent of the line. -/
theorem maxAscentLoop_zero (h : Host) (line : List LineEntry) :
    maxAscentLoop 0 (line.map (fun entry => h.metrics entry.font))
      = max 0 (maxOf 0 (lineAscents h line)) := by
  rw [maxAscentLoop_eq]
  cases line with
  | nil => simp [maxOf, lineAscents]
  | cons e es =>
    simp only [List.map_cons, List.foldl_cons, lineAscents, maxOf, List.map_map]
    rw [foldl_max_max]
    rfl

/-- C4: one call of `flush` appends exactly one DisplayItem per LineEntry of the
line, in line order, each with the entry's `x`, `word` and `font`, and all of
them with one and the same `y`. -/
theorem flush_appends (h : Host) (s : Layout) :
    ∃ y : ℚ, (flush h s).display_list
      = s.display_list ++ s.line.map (fun entry =>
          ({ x := entry.x, y := y, word := entry.word, font := entry.font } : DisplayItem)) :=
  ⟨flushBaseline h s, flush_display_list h s⟩

/-! ## Layout of a single `Text` token -/

theorem flush_new (h : Host) (tokens : List Token) :
    flush h (Layout.new tokens) = Layout.new tokens := by
  rw [flush_eq]
  simp [Layout.new, flushBaseline, maxAscentLoop, maxDescentLoop]

/-- Dispatching `Text(w)` on a fresh layout puts the single entry `w` at `x = HSTEP`
in the line, whether or not `w` is wider than the line. -/
theorem token_text_new (h : Host) (tokens : List Token) (w : String) :
    token h (Layout.new tokens) (Token.Text w)
      = { Layout.new tokens with
          line := [{ x := HSTEP, word := w, font := plainFont }]
          cursor_x := HSTEP + (h.measure plainFont w + h.measure plainFont " ") } := by
  simp only [token, text_eq, textStep, flush_new, ite_self]
  rfl

/-- The display list of a single `Text` token: one item at `x = HSTEP` holding the
whole text. -/
theorem layout_single_text (h : Host) (w : String) :
    layout h [Token.Text w]
      = [{ x := HSTEP, y := VSTEP + 6 / 5 * max 0 (h.metrics plainFont).ascent, word := w,
           font := plainFont }] := by
  have hstep : dispatchAll h (Layout.new [Token.Text w]) [Token.Text w]
      = token h (Layout.new [Token.Text w]) (Token.Text w) := rfl
  have hmax : maxAscentLoop 0 [h.metrics plainFont] = max 0 (h.metrics plainFont).ascent := by
    rw [maxAscentLoop_eq]; rfl
  have htok : (Layout.new [Token.Text w]).tokens = [Token.Text w] := rfl
  simp only [layout, Layout.layout, htok, hstep, token_text_new, flush_display_list,
    flushBaseline, List.map_cons, List.map_nil, hmax]
  rfl

/-- C10: for every word `w` without whitespace whose measured width exceeds
`WIDTH - 2*HSTEP`, and every host, `layout` of `[Text(w)]` returns exactly one
DisplayItem, whose word is `w` and whose `x` is `HSTEP`. -/
theorem layout_wide_word (h : Host) (w : String)
    (_hws : ∀ c ∈ w.data, c.isWhitespace = false)
    (_hwide : h.measure plainFont w > WIDTH - 2 * HSTEP) :
    ∃ it : DisplayItem, layout h [Token.Text w] = [it] ∧ it.word = w ∧ it.x = HSTEP :=
  ⟨_, layout_single_text h w, rfl, rfl⟩

/-- C10 at the word `Llanfairpwllgwyngyll`, measured 1000 wide. -/
theorem layout_wide_word_witness :
    (∀ c ∈ ("Llanfairpwllgwyngyll" : String).data, c.isWhitespace = false)
      ∧ wideHost.measure plainFont "Llanfairpwllgwyngyll" > WIDTH - 2 * HSTEP
      ∧ ∃ it : DisplayItem, layout wideHost [Token.Text "Llanfairpwllgwyngyll"] = [it]
          ∧ it.word = "Llanfairpwllgwyngyll" ∧ it.x = HSTEP := by
  have hwide : wideHost.measure plainFont "Llanfairpwllgwyngyll" > WIDTH - 2 * HSTEP := by
    norm_num [wideHost, WIDTH, HSTEP]
  exact ⟨by decide, hwide, layout_wide_word wideHost "Llanfairpwllgwyngyll" (by decide) hwide⟩

/-! ## Facts about `Browser` -/

/-- C8: for every display list, scroll offset and host, the draw calls of
`Browser.render` are, in display-list order, exactly those for the items with
neither `y > scroll + HEIGHT` nor `y + (ascent + descent) < scroll`, each a
`fillText` of the item's word under the item's font at `(x, y - scroll)`. -/
theorem render_draws (h : Host) (width height scroll : ℚ) (display_list : List DisplayItem) :
    Browser.render h
        { canvas_width := width, canvas_height := height,
          display_list := some display_list, scroll := scroll }
      = Except.ok
          ((display_list.filter (fun it =>
              decide (¬ (it.y > scroll + HEIGHT)
                ∧ ¬ (it.y + ((h.metrics it.font).ascent + (h.metrics it.font).descent) < scroll)))).map
            (fun it => HostCall.fillText it.font.toString it.word it.x (it.y - scroll))) := by
  simp only [Browser.render]
  congr 1
  induction display_list with
  | nil => rfl
  | cons entry rest ih =>
    by_cases h1 : entry.y > scroll + HEIGHT
    · simp [renderLoop, List.filter_cons, h1, ih]
    · by_cases h2 : entry.y + ((h.metrics entry.font).ascent + (h.metrics entry.font).descent)
          < scroll
      · simp [renderLoop, List.filter_cons, h1, h2, ih]
      · have h1le := not_lt.mp h1
        have h2le := not_lt.mp h2
        simp [renderLoop, List.filter_cons, h1, h2, h1le, h2le, ih]

/-- C9: after `load("hi")` on a fresh 800 by 600 browser under `tallHost`, the
host calls of `scrolldown` are one `fillText` and no `clearRect`: the word is
drawn again, 100 higher, over the output of the first render. -/
theorem scrolldown_draws_without_clear :
    (Browser.load tallHost (Browser.new 800 600) "hi").2
        = [HostCall.clearRect 0 0 800 600,
           HostCall.fillText "normal normal 16px sans-serif" "hi" 6 138]
      ∧ (Browser.scrolldown tallHost (Browser.load tallHost (Browser.new 800 600) "hi").1).2
        = [HostCall.fillText "normal normal 16px sans-serif" "hi" 6 38] := by
  have hlex : lex "hi" = [Token.Text "hi"] := by decide
  have hfont : plainFont.toString = "normal normal 16px sans-serif" := by decide
  have hlay : layout tallHost [Token.Text "hi"]
      = [{ x := 6, y := 138, word := "hi", font := plainFont }] := by
    rw [layout_single_text]
    norm_num [tallHost, HSTEP, VSTEP]
  constructor
  · simp only [Browser.load, Browser.scrolldown, Browser.new, Browser.clearCanvas, renderTrace,
      Browser.render, hlex, hlay, renderLoop, hfont]
    norm_num [tallHost, HEIGHT, SCROLL_STEP]
  · simp only [Browser.load, Browser.scrolldown, Browser.new, Browser.clearCanvas, renderTrace,
      Browser.render, hlex, hlay, renderLoop, hfont]
    norm_num [tallHost, HEIGHT, SCROLL_STEP]

/-! ## The over-wide word, the state after `flush`, the typographic tags, `scrolldown` -/

/-- C11, as stated, fails: after `Text("Llanfairpwllgwyngyll")`, measured 1000
wide, is dispatched on a fresh layout, the line is not empty and the display
list is. -/
theorem token_wide_word_not_flushed :
    wideHost.measure plainFont "Llanfairpwllgwyngyll" > WIDTH - 2 * HSTEP
      ∧ (token wideHost (Layout.new []) (Token.Text "Llanfairpwllgwyngyll")).line ≠ []
      ∧ (token wideHost (Layout.new []) (Token.Text "Llanfairpwllgwyngyll")).display_list = [] := by
  refine ⟨by norm_num [wideHost, WIDTH, HSTEP], ?_, ?_⟩
  · rw [token_text_new]; simp
  · rw [token_text_new]; rfl

/-- C11, amended: after `Text(w)` for an over-wide `w` is dispatched on a fresh
layout, the line holds exactly the entry for `w` at `x = HSTEP` and the display
list is still empty (the flush of the overflow test ran before the word was
added, on the empty line); the next flush empties the line and emits the one
DisplayItem for `w`. -/
theorem token_wide_word (h : Host) (tokens : List Token) (w : String)
    (_hwide : h.measure plainFont w > WIDTH - 2 * HSTEP) :
    (token h (Layout.new tokens) (Token.Text w)).line
        = [{ x := HSTEP, word := w, font := plainFont }]
      ∧ (token h (Layout.new tokens) (Token.Text w)).display_list = []
      ∧ (flush h (token h (Layout.new tokens) (Token.Text w))).line = []
      ∧ ∃ y : ℚ, (flush h (token h (Layout.new tokens) (Token.Text w))).display_list
          = [{ x := HSTEP, y := y, word := w, font := plainFont }] := by
  refine ⟨by rw [token_text_new], by rw [token_text_new]; rfl, flush_line _ _, ?_⟩
  refine ⟨flushBaseline h (token h (Layout.new tokens) (Token.Text w)), ?_⟩
  rw [flush_display_list]
  generalize flushBaseline h (token h (Layout.new tokens) (Token.Text w)) = y
  rw [token_text_new]
  rfl

/-- C11 (amended) at the word `Llanfairpwllgwyngyll`, measured 1000 wide. -/
theorem token_wide_word_witness :
    wideHost.measure plainFont "Llanfairpwllgwyngyll" > WIDTH - 2 * HSTEP
      ∧ (token wideHost (Layout.new []) (Token.Text "Llanfairpwllgwyngyll")).line
          = [{ x := HSTEP, word := "Llanfairpwllgwyngyll", font := plainFont }] := by
  have hwide : wideHost.measure plainFont "Llanfairpwllgwyngyll" > WIDTH - 2 * HSTEP := by
    norm_num [wideHost, WIDTH, HSTEP]
  exact ⟨hwide, (token_wide_word wideHost [] "Llanfairpwllgwyngyll" hwide).1⟩

/-- C12: for every layout state and every host, after `flush` the field
`cursor_x` is `HSTEP`, which is 6, and `line` is empty. -/
theorem flush_resets (h : Host) (s : Layout) :
    (flush h s).cursor_x = HSTEP ∧ HSTEP = 6 ∧ (flush h s).line = [] :=
  ⟨flush_cursor_x h s, rfl, flush_line h s⟩

/-- C16: the typographic tags follow the dispatch table, and each changes one
field of the layout state only. -/
theorem token_typographic (h : Host) (s : Layout) :
    token h s (Token.Tag "i") = { s with style := "italic" }
      ∧ token h s (Token.Tag "/i") = { s with style := "normal" }
      ∧ token h s (Token.Tag "b") = { s with weight := "bold" }
      ∧ token h s (Token.Tag "/b") = { s with weight := "normal" }
      ∧ token h s (Token.Tag "small") = { s with size := s.size - 2 }
      ∧ token h s (Token.Tag "/small") = { s with size := s.size + 2 }
      ∧ token h s (Token.Tag "big") = { s with size := s.size + 4 }
      ∧ token h s (Token.Tag "/big") = { s with size := s.size - 4 } := by
  refine ⟨?_, ?_, ?_, ?_, ?_, ?_, ?_, ?_⟩ <;> simp [token]

theorem scrolldown_iterate (h : Host) (b : Browser) (n : Nat) :
    (Nat.iterate (fun b => (Browser.scrolldown h b).1) n b).scroll
      = b.scroll + SCROLL_STEP * n := by
  induction n generalizing b with
  | zero => simp
  | succ n ih =>
    rw [Function.iterate_succ_apply, ih]
    simp only [Browser.scrolldown]
    push_cast
    ring

/-- C15: `scrolldown` adds `SCROLL_STEP`, which is 100, to `scroll` and leaves
the stored display list as it was; after `n` calls on a fresh browser `scroll`
is `100 * n`. -/
theorem scrolldown_scroll (h : Host) (b : Browser) (n : Nat) (width height : ℚ) :
    (Browser.scrolldown h b).1.scroll = b.scroll + SCROLL_STEP
      ∧ SCROLL_STEP = 100
      ∧ (Browser.scrolldown h b).1.display_list = b.display_list
      ∧ (Nat.iterate (fun b => (Browser.scrolldown h b).1) n (Browser.new width height)).scroll
          = 100 * n := by
  refine ⟨rfl, rfl, rfl, ?_⟩
  rw [scrolldown_iterate]
  simp [Browser.new, SCROLL_STEP]

/-! ## Unknown tags -/

theorem flush_setTokens (h : Host) (s : Layout) (ts : List Token) :
    flush h { s with tokens := ts } = { flush h s with tokens := ts } := by
  rw [flush_eq, flush_eq]
  rfl

theorem textStep_setTokens (h : Host) (font : Font) (s : Layout) (word : String)
    (ts : List Token) :
    textStep h font { s with tokens := ts } word = { textStep h font s word with tokens := ts } := by
  unfold textStep
  by_cases hover : s.cursor_x + h.measure font word > WIDTH - HSTEP
  · simp only [hover, if_true, flush_setTokens]
  · simp only [hover, if_false]

theorem token_tag (h : Host) (s : Layout) (tag : String) :
    token h s (Token.Tag tag)
      = if tag = "i" then { s with style := "italic" }
        else if tag = "/i" then { s with style := "normal" }
        else if tag = "b" then { s with weight := "bold" }
        else if tag = "/b" then { s with weight := "normal" }
        else if tag = "small" then { s with size := s.size - 2 }
        else if tag = "/small" then { s with size := s.size + 2 }
        else if tag = "big" then { s with size := s.size + 4 }
        else if tag = "/big" then { s with size := s.size - 4 }
        else if tag = "br" then flush h s
        else if tag = "/p" then flush h s
        else s := rfl

theorem token_setTokens (h : Host) (s : Layout) (tok : Token) (ts : List Token) :
    token h { s with tokens := ts } tok = { token h s tok with tokens := ts } := by
  cases tok with
  | Text t => exact textStep_setTokens h _ s t ts
  | Tag tag =>
    rw [token_tag, token_tag]
    by_cases h1 : tag = "i"
    · rw [if_pos h1, if_pos h1]
    rw [if_neg h1, if_neg h1]
    by_cases h2 : tag = "/i"
    · rw [if_pos h2, if_pos h2]
    rw [if_neg h2, if_neg h2]
    by_cases h3 : tag = "b"
    · rw [if_pos h3, if_pos h3]
    rw [if_neg h3, if_neg h3]
    by_cases h4 : tag = "/b"
    · rw [if_pos h4, if_pos h4]
    rw [if_neg h4, if_neg h4]
    by_cases h5 : tag = "small"
    · rw [if_pos h5, if_pos h5]
    rw [if_neg h5, if_neg h5]
    by_cases h6 : tag = "/small"
    · rw [if_pos h6, if_pos h6]
    rw [if_neg h6, if_neg h6]
    by_cases h7 : tag = "big"
    · rw [if_pos h7, if_pos h7]
    rw [if_neg h7, if_neg h7]
    by_cases h8 : tag = "/big"
    · rw [if_pos h8, if_pos h8]
    rw [if_neg h8, if_neg h8]
    by_cases h9 : tag = "br"
    · rw [if_pos h9, if_pos h9]; exact flush_setTokens h s ts
    rw [if_neg h9, if_neg h9]
    by_cases h10 : tag = "/p"
    · rw [if_pos h10, if_pos h10]; exact flush_setTokens h s ts
    rw [if_neg h10, if_neg h10]

theorem dispatchAll_cons (h : Host) (s : Layout) (tok : Token) (toks : List Token) :
    dispatchAll h s (tok :: toks) = dispatchAll h (token h s tok) toks := rfl

theorem dispatchAll_setTokens (h : Host) (s : Layout) (toks ts : List Token) :
    dispatchAll h { s with tokens := ts } toks = { dispatchAll h s toks with tokens := ts } := by
  induction toks generalizing s with
  | nil => rfl
  | cons tok rest ih => rw [dispatchAll_cons, dispatchAll_cons, token_setTokens, ih]

/-- The display list returned by `layout` does not depend on what the field
`tokens` holds while the tokens `toks` are dispatched. -/
theorem layout_eq_dispatch (h : Host) (toks ts : List Token) :
    layout h toks = (flush h (dispatchAll h (Layout.new ts) toks)).display_list := by
  have hnew : Layout.new toks = { Layout.new ts with tokens := toks } := rfl
  have htok : (Layout.new toks).tokens = toks := rfl
  simp only [layout, Layout.layout, htok]
  rw [hnew, dispatchAll_setTokens, flush_setTokens]

theorem token_unknown (h : Host) (s : Layout) (name : String) (hname : name ∉ knownTags) :
    token h s (Token.Tag name) = s := by
  simp only [knownTags, List.mem_cons, List.mem_singleton, List.mem_nil_iff, or_false,
    not_or] at hname
  obtain ⟨h1, h2, h3, h4, h5, h6, h7, h8, h9, h10⟩ := hname
  simp only [token, h1, h2, h3, h4, h5, h6, h7, h8, h9, h10, if_false]

theorem dispatchAll_filter_unknown (h : Host) (s : Layout) (toks : List Token) :
    dispatchAll h s (toks.filter (fun tok => !tok.isUnknownTag)) = dispatchAll h s toks := by
  induction toks generalizing s with
  | nil => rfl
  | cons tok rest ih =>
    by_cases hu : tok.isUnknownTag = true
    · have hstep : token h s tok = s := by
        cases tok with
        | Text t => simp [Token.isUnknownTag] at hu
        | Tag name =>
          exact token_unknown h s name (by simpa [Token.isUnknownTag] using hu)
      rw [List.filter_cons_of_neg (by simp [hu]), dispatchAll_cons, hstep, ih]
    · rw [List.filter_cons_of_pos (by simpa using hu), dispatchAll_cons, dispatchAll_cons, ih]

/-- C13: for every layout state and every tag name other than the ten known
ones, dispatching `Tag(name)` leaves the whole layout state unchanged; and
`layout` of a token list equals `layout` of the list without its unknown tags. -/
theorem unknown_tag_ignored (h : Host) (s : Layout) (name : String) (toks : List Token)
    (hname : name ∉ knownTags) :
    token h s (Token.Tag name) = s
      ∧ layout h toks = layout h (toks.filter (fun tok => !tok.isUnknownTag)) := by
  refine ⟨token_unknown h s name hname, ?_⟩
  rw [layout_eq_dispatch h toks [],
    layout_eq_dispatch h (toks.filter (fun tok => !tok.isUnknownTag)) [],
    dispatchAll_filter_unknown]

/-- C13 at the tag `span` and the token list `[Tag("span"), Text("hi"), Tag("/span")]`. -/
theorem unknown_tag_ignored_witness :
    "span" ∉ knownTags
      ∧ token narrowHost (Layout.new []) (Token.Tag "span") = Layout.new []
      ∧ layout narrowHost [Token.Tag "span", Token.Text "hi", Token.Tag "/span"]
          = layout narrowHost [Token.Text "hi"] := by
  have h := unknown_tag_ignored narrowHost (Layout.new [])
    "span" [Token.Tag "span", Token.Text "hi", Token.Tag "/span"] (by decide)
  have hfilter : [Token.Tag "span", Token.Text "hi", Token.Tag "/span"].filter
      (fun tok => !tok.isUnknownTag) = [Token.Text "hi"] := by decide
  rw [hfilter] at h
  exact ⟨by decide, h.1, h.2⟩

/-! ## Flushing an empty line -/

/-- While tokens are dispatched, an empty line goes with `cursor_x = HSTEP`. -/
theorem token_line_empty (h : Host) (s : Layout) (tok : Token)
    (hs : s.line = [] → s.cursor_x = HSTEP) :
    (token h s tok).line = [] → (token h s tok).cursor_x = HSTEP := by
  cases tok with
  | Text t =>
    intro hline
    simp [token, text_eq, textStep] at hline
  | Tag tag =>
    simp only [token]
    split_ifs <;> first | exact hs | exact fun _ => flush_cursor_x h s

theorem reachable_line_empty (h : Host) (s : Layout) (hr : Reachable h s) :
    s.line = [] → s.cursor_x = HSTEP := by
  obtain ⟨tokens, toks, rfl⟩ := hr
  have key : ∀ (toks : List Token) (s : Layout), (s.line = [] → s.cursor_x = HSTEP) →
      (dispatchAll h s toks).line = [] → (dispatchAll h s toks).cursor_x = HSTEP := by
    intro toks
    induction toks with
    | nil => intro s hs; exact hs
    | cons tok rest ih =>
      intro s hs
      rw [dispatchAll_cons]
      exact ih _ (token_line_empty h s tok hs)
  exact key toks _ (fun _ => rfl)

theorem flush_of_line_empty (h : Host) (s : Layout) (hline : s.line = [])
    (hx : s.cursor_x = HSTEP) : flush h s = s := by
  rw [flush_eq]
  obtain ⟨tokens, display_list, cursor_x, cursor_y, weight, style, size, line⟩ := s
  simp only at hline hx
  subst hline hx
  simp [flushBaseline, maxAscentLoop, maxDescentLoop]

/-- C17: flushing an empty line is a no-op. For every layout state reached from
a fresh layout by dispatching tokens, if `line` is empty then `flush` returns
the state unchanged (`cursor_x`, `cursor_y`, display list and line included). -/
theorem flush_empty_line (h : Host) (s : Layout) (hr : Reachable h s) (hline : s.line = []) :
    flush h s = s :=
  flush_of_line_empty h s hline (reachable_line_empty h s hr hline)

/-- C17 at the state after `Text("hi")` and `Tag("br")`: a second flush changes nothing. -/
theorem flush_empty_line_witness :
    Reachable narrowHost
        (dispatchAll narrowHost (Layout.new []) [Token.Text "hi", Token.Tag "br"])
      ∧ (dispatchAll narrowHost (Layout.new []) [Token.Text "hi", Token.Tag "br"]).line = []
      ∧ flush narrowHost
          (dispatchAll narrowHost (Layout.new []) [Token.Text "hi", Token.Tag "br"])
        = dispatchAll narrowHost (Layout.new []) [Token.Text "hi", Token.Tag "br"] := by
  have hr : Reachable narrowHost
      (dispatchAll narrowHost (Layout.new []) [Token.Text "hi", Token.Tag "br"]) :=
    ⟨[], [Token.Text "hi", Token.Tag "br"], rfl⟩
  have hline :
      (dispatchAll narrowHost (Layout.new []) [Token.Text "hi", Token.Tag "br"]).line = [] := by
    have hbr : ∀ s : Layout, token narrowHost s (Token.Tag "br") = flush narrowHost s := by
      intro s; simp [token]
    simp only [dispatchAll, List.foldl_cons, List.foldl_nil, hbr, flush_line]
  exact ⟨hr, hline, flush_empty_line narrowHost _ hr hline⟩

/-! ## Top-to-bottom order of the display list -/

theorem le_maxAscentLoop (a : ℚ) (metrics : List Metrics) : a ≤ maxAscentLoop a metrics := by
  induction metrics generalizing a with
  | nil => exact le_refl a
  | cons m ms ih =>
    have hstep : maxAscentLoop a (m :: ms)
        = maxAscentLoop (if m.ascent > a then m.ascent else a) ms := rfl
    rw [hstep]
    refine le_trans ?_ (ih _)
    by_cases hm : m.ascent > a
    · rw [if_pos hm]; exact le_of_lt hm
    · rw [if_neg hm]

theorem le_maxDescentLoop (a : ℚ) (metrics : List Metrics) : a ≤ maxDescentLoop a metrics := by
  induction metrics generalizing a with
  | nil => exact le_refl a
  | cons m ms ih =>
    have hstep : maxDescentLoop a (m :: ms)
        = maxDescentLoop (if m.descent > a then m.descent else a) ms := rfl
    rw [hstep]
    refine le_trans ?_ (ih _)
    by_cases hm : m.descent > a
    · rw [if_pos hm]; exact le_of_lt hm
    · rw [if_neg hm]

/-- The baseline of a flush is never above the `cursor_y` it starts from. -/
theorem cursor_y_le_flushBaseline (h : Host) (s : Layout) : s.cursor_y ≤ flushBaseline h s := by
  have hmax := le_maxAscentLoop 0 (s.line.map (fun entry => h.metrics entry.font))
  unfold flushBaseline
  linarith

/-- The `cursor_y` that a flush leaves is never above its baseline. -/
theorem flushBaseline_le_cursor_y (h : Host) (s : Layout) :
    flushBaseline h s ≤ (flush h s).cursor_y := by
  have hmax := le_maxDescentLoop 0 (s.line.map (fun entry => h.metrics entry.font))
  rw [flush_cursor_y]
  linarith

theorem topToBottom_flush (h : Host) (s : Layout) (hs : topToBottom s) :
    topToBottom (flush h s) := by
  obtain ⟨hpair, hbound, hcur⟩ := hs
  have h1 := cursor_y_le_flushBaseline h s
  have h2 := flushBaseline_le_cursor_y h s
  refine ⟨?_, ?_, le_trans hcur (le_trans h1 h2)⟩
  · rw [flush_display_list, List.pairwise_append]
    refine ⟨hpair, ?_, ?_⟩
    · rw [List.pairwise_map]
      exact List.pairwise_of_forall (fun _ _ => le_refl _)
    · intro a ha b hb
      obtain ⟨entry, _, rfl⟩ := List.mem_map.mp hb
      exact le_trans (hbound a ha).2 h1
  · intro it hit
    rw [flush_display_list, List.mem_append] at hit
    rcases hit with hit | hit
    · exact ⟨(hbound it hit).1, le_trans (hbound it hit).2 (le_trans h1 h2)⟩
    · obtain ⟨entry, _, rfl⟩ := List.mem_map.mp hit
      exact ⟨le_trans hcur h1, h2⟩

theorem topToBottom_textStep (h : Host) (font : Font) (s : Layout) (word : String)
    (hs : topToBottom s) : topToBottom (textStep h font s word) := by
  unfold textStep
  by_cases hover : s.cursor_x + h.measure font word > WIDTH - HSTEP
  · simp only [hover, if_true]
    exact topToBottom_flush h s hs
  · simp only [hover, if_false]
    exact hs

/-- Dispatching a tag either flushes, or changes at most the three typographic fields. -/
theorem token_tag_cases (h : Host) (s : Layout) (tag : String) :
    token h s (Token.Tag tag) = flush h s
      ∨ ∃ (style weight : String) (size : Int),
          token h s (Token.Tag tag) = { s with style := style, weight := weight, size := size } := by
  rw [token_tag]
  by_cases h1 : tag = "i"
  · rw [if_pos h1]; exact Or.inr ⟨"italic", s.weight, s.size, rfl⟩
  rw [if_neg h1]
  by_cases h2 : tag = "/i"
  · rw [if_pos h2]; exact Or.inr ⟨"normal", s.weight, s.size, rfl⟩
  rw [if_neg h2]
  by_cases h3 : tag = "b"
  · rw [if_pos h3]; exact Or.inr ⟨s.style, "bold", s.size, rfl⟩
  rw [if_neg h3]
  by_cases h4 : tag = "/b"
  · rw [if_pos h4]; exact Or.inr ⟨s.style, "normal", s.size, rfl⟩
  rw [if_neg h4]
  by_cases h5 : tag = "small"
  · rw [if_pos h5]; exact Or.inr ⟨s.style, s.weight, s.size - 2, rfl⟩
  rw [if_neg h5]
  by_cases h6 : tag = "/small"
  · rw [if_pos h6]; exact Or.inr ⟨s.style, s.weight, s.size + 2, rfl⟩
  rw [if_neg h6]
  by_cases h7 : tag = "big"
  · rw [if_pos h7]; exact Or.inr ⟨s.style, s.weight, s.size + 4, rfl⟩
  rw [if_neg h7]
  by_cases h8 : tag = "/big"
  · rw [if_pos h8]; exact Or.inr ⟨s.style, s.weight, s.size - 4, rfl⟩
  rw [if_neg h8]
  by_cases h9 : tag = "br"
  · rw [if_pos h9]; exact Or.inl rfl
  rw [if_neg h9]
  by_cases h10 : tag = "/p"
  · rw [if_pos h10]; exact Or.inl rfl
  rw [if_neg h10]
  exact Or.inr ⟨s.style, s.weight, s.size, rfl⟩

theorem topToBottom_token (h : Host) (s : Layout) (tok : Token) (hs : topToBottom s) :
    topToBottom (token h s tok) := by
  cases tok with
  | Text t => exact topToBottom_textStep h _ s t hs
  | Tag tag =>
    rcases token_tag_cases h s tag with hf | ⟨style, weight, size, hf⟩
    · rw [hf]; exact topToBottom_flush h s hs
    · rw [hf]; exact hs

theorem topToBottom_dispatchAll (h : Host) (s : Layout) (toks : List Token)
    (hs : topToBottom s) : topToBottom (dispatchAll h s toks) := by
  induction toks generalizing s with
  | nil => exact hs
  | cons tok rest ih =>
    rw [dispatchAll_cons]
    exact ih _ (topToBottom_token h s tok hs)

/-- C20: the display list is ordered top to bottom. For every token list and
every host, the `y` values of the DisplayItems returned by `layout` never
decrease along the list, and every `y` is at least `VSTEP`. -/
theorem layout_top_to_bottom (h : Host) (toks : List Token) :
    (layout h toks).Pairwise (fun a b => a.y ≤ b.y) ∧ ∀ it ∈ layout h toks, VSTEP ≤ it.y := by
  have hnew : topToBottom (Layout.new toks) :=
    ⟨List.Pairwise.nil, fun it hit => absurd hit (List.not_mem_nil it), le_refl _⟩
  have hend := topToBottom_flush h _ (topToBottom_dispatchAll h _ toks hnew)
  exact ⟨hend.1, fun it hit => (hend.2.1 it hit).1⟩

/-! ## End to end: `<b>Bold</b> and <i>italic</i>` -/

theorem lex_boldAndItalic : lex "<b>Bold</b> and <i>italic</i>" = boldAndItalic := by
  decide

/-! ## The rounded methods -/

theorem rounded_flush_eq (fl : ℚ → ℚ) (h : Host) (s : Rounded.Layout) :
    Rounded.flush fl h s =
      { s with
        display_list := s.display_list ++ s.line.map (fun entry =>
          ({ x := entry.x, y := Rounded.flushBaseline fl h s, word := entry.word,
             font := entry.font } : DisplayItem))
        flushes := s.flushes ++ [s.line.map (fun entry =>
          ({ x := entry.x, y := Rounded.flushBaseline fl h s, word := entry.word,
             font := entry.font } : DisplayItem))]
        cursor_x := HSTEP
        line := []
        cursor_y := fl (Rounded.flushBaseline fl h s
          + fl (fl (6 / 5) * maxDescentLoop 0 (s.line.map (fun entry => h.metrics entry.font)))) } := by
  simp [Rounded.flush, arrayTruthy]

theorem rounded_flush_display_list (fl : ℚ → ℚ) (h : Host) (s : Rounded.Layout) :
    (Rounded.flush fl h s).display_list = s.display_list ++ s.line.map (fun entry =>
      ({ x := entry.x, y := Rounded.flushBaseline fl h s, word := entry.word,
         font := entry.font } : DisplayItem)) := by
  rw [rounded_flush_eq]

theorem rounded_flush_flushes (fl : ℚ → ℚ) (h : Host) (s : Rounded.Layout) :
    (Rounded.flush fl h s).flushes = s.flushes ++ [s.line.map (fun entry =>
      ({ x := entry.x, y := Rounded.flushBaseline fl h s, word := entry.word,
         font := entry.font } : DisplayItem))] := by
  rw [rounded_flush_eq]

theorem rounded_flush_line (fl : ℚ → ℚ) (h : Host) (s : Rounded.Layout) :
    (Rounded.flush fl h s).line = [] := by
  rw [rounded_flush_eq]

theorem rounded_flush_cursor_x (fl : ℚ → ℚ) (h : Host) (s : Rounded.Layout) :
    (Rounded.flush fl h s).cursor_x = HSTEP := by
  rw [rounded_flush_eq]

theorem rounded_token_tag (fl : ℚ → ℚ) (h : Host) (s : Rounded.Layout) (tag : String) :
    Rounded.token fl h s (Token.Tag tag)
      = if tag = "i" then { s with style := "italic" }
        else if tag = "/i" then { s with style := "normal" }
        else if tag = "b" then { s with weight := "bold" }
        else if tag = "/b" then { s with weight := "normal" }
        else if tag = "small" then { s with size := s.size - 2 }
        else if tag = "/small" then { s with size := s.size + 2 }
        else if tag = "big" then { s with size := s.size + 4 }
        else if tag = "/big" then { s with size := s.size - 4 }
        else if tag = "br" then Rounded.flush fl h s
        else if tag = "/p" then Rounded.flush fl h s
        else s := rfl

/-- Dispatching a tag either flushes, or changes at most the three typographic fields. -/
theorem rounded_token_tag_cases (fl : ℚ → ℚ) (h : Host) (s : Rounded.Layout) (tag : String) :
    Rounded.token fl h s (Token.Tag tag) = Rounded.flush fl h s
      ∨ ∃ (style weight : String) (size : Int),
          Rounded.token fl h s (Token.Tag tag)
            = { s with style := style, weight := weight, size := size } := by
  rw [rounded_token_tag]
  by_cases h1 : tag = "i"
  · rw [if_pos h1]; exact Or.inr ⟨"italic", s.weight, s.size, rfl⟩
  rw [if_neg h1]
  by_cases h2 : tag = "/i"
  · rw [if_pos h2]; exact Or.inr ⟨"normal", s.weight, s.size, rfl⟩
  rw [if_neg h2]
  by_cases h3 : tag = "b"
  · rw [if_pos h3]; exact Or.inr ⟨s.style, "bold", s.size, rfl⟩
  rw [if_neg h3]
  by_cases h4 : tag = "/b"
  · rw [if_pos h4]; exact Or.inr ⟨s.style, "normal", s.size, rfl⟩
  rw [if_neg h4]
  by_cases h5 : tag = "small"
  · rw [if_pos h5]; exact Or.inr ⟨s.style, s.weight, s.size - 2, rfl⟩
  rw [if_neg h5]
  by_cases h6 : tag = "/small"
  · rw [if_pos h6]; exact Or.inr ⟨s.style, s.weight, s.size + 2, rfl⟩
  rw [if_neg h6]
  by_cases h7 : tag = "big"
  · rw [if_pos h7]; exact Or.inr ⟨s.style, s.weight, s.size + 4, rfl⟩
  rw [if_neg h7]
  by_cases h8 : tag = "/big"
  · rw [if_pos h8]; exact Or.inr ⟨s.style, s.weight, s.size - 4, rfl⟩
  rw [if_neg h8]
  by_cases h9 : tag = "br"
  · rw [if_pos h9]; exact Or.inl rfl
  rw [if_neg h9]
  by_cases h10 : tag = "/p"
  · rw [if_pos h10]; exact Or.inl rfl
  rw [if_neg h10]
  exact Or.inr ⟨s.style, s.weight, s.size, rfl⟩

theorem rounded_dispatchAll_cons (fl : ℚ → ℚ) (h : Host) (s : Rounded.Layout) (tok : Token)
    (toks : List Token) :
    Rounded.dispatchAll fl h s (tok :: toks)
      = Rounded.dispatchAll fl h (Rounded.token fl h s tok) toks := rfl

/-! ## The rounded methods: the line accumulator -/

theorem rounded_lineInv_of_line_nil (fl : ℚ → ℚ) (h : Host) (s : Rounded.Layout)
    (hline : s.line = []) (hx : s.cursor_x = HSTEP) : Rounded.lineInv fl h s := by
  refine ⟨fun _ => hx, ?_, ?_, ?_, ?_⟩
  · rw [hline]; intro e he; simp at he
  · rw [hline]; exact List.chain'_nil
  · rw [hline]; intro e he; simp at he
  · rw [hline]; intro e he; simp at he

theorem rounded_lineInv_flush (fl : ℚ → ℚ) (h : Host) (s : Rounded.Layout) :
    Rounded.lineInv fl h (Rounded.flush fl h s) :=
  rounded_lineInv_of_line_nil fl h _ (rounded_flush_line fl h s) (rounded_flush_cursor_x fl h s)

/-- Adding a word to a well laid out line, at `cursor_x`, keeps it well laid
out, provided the word passed the overflow test or the line was empty. -/
theorem rounded_lineInv_push (fl : ℚ → ℚ) (h : Host) (s : Rounded.Layout) (font : Font)
    (word : String) (hs : Rounded.lineInv fl h s)
    (hfit : s.line ≠ [] → fl (s.cursor_x + h.measure font word) ≤ fl (WIDTH - HSTEP)) :
    Rounded.lineInv fl h
      { s with
        line := s.line ++ [{ x := s.cursor_x, word := word, font := font }]
        cursor_x := fl (s.cursor_x + fl (h.measure font word + h.measure font " ")) } := by
  obtain ⟨hempty, hhead, hchain, hlast, htail⟩ := hs
  refine ⟨?_, ?_, ?_, ?_, ?_⟩
  · intro hnil
    simp at hnil
  · intro e he
    by_cases hl : s.line = []
    · simp only [hl, List.nil_append, List.head?_cons, Option.mem_def, Option.some.injEq] at he
      rw [← he]
      exact hempty hl
    · simp only [List.head?_append_of_ne_nil _ hl] at he
      exact hhead e he
  · refine List.Chain'.append hchain (List.chain'_singleton _) ?_
    intro a ha b hb
    simp only [List.head?_cons, Option.mem_def, Option.some.injEq] at hb
    rw [← hb]
    exact hlast a ha
  · intro e he
    simp only [List.getLast?_concat, Option.mem_def, Option.some.injEq] at he
    rw [← he]
  · intro e he
    by_cases hl : s.line = []
    · simp [hl] at he
    · simp only [List.tail_append_of_ne_nil hl, List.mem_append, List.mem_singleton] at he
      rcases he with he | he
      · exact htail e he
      · rw [he]
        exact hfit hl

theorem rounded_lineInv_textStep (fl : ℚ → ℚ) (h : Host) (font : Font) (s : Rounded.Layout)
    (word : String) (hs : Rounded.lineInv fl h s) :
    Rounded.lineInv fl h (Rounded.textStep fl h font s word) := by
  unfold Rounded.textStep
  by_cases hover : fl (s.cursor_x + h.measure font word) > fl (WIDTH - HSTEP)
  · simp only [hover, if_true]
    exact rounded_lineInv_push fl h (Rounded.flush fl h s) font word
      (rounded_lineInv_flush fl h s) (fun hne => absurd (rounded_flush_line fl h s) hne)
  · simp only [hover, if_false]
    exact rounded_lineInv_push fl h s font word hs (fun _ => not_lt.mp hover)

theorem rounded_lineInv_token (fl : ℚ → ℚ) (h : Host) (s : Rounded.Layout) (tok : Token)
    (hs : Rounded.lineInv fl h s) : Rounded.lineInv fl h (Rounded.token fl h s tok) := by
  cases tok with
  | Text t => exact rounded_lineInv_textStep fl h _ s t hs
  | Tag tag =>
    rcases rounded_token_tag_cases fl h s tag with hf | ⟨style, weight, size, hf⟩
    · rw [hf]; exact rounded_lineInv_flush fl h s
    · rw [hf]; exact hs

/-! ## The rounded methods: the flushed lines -/

/-- A flush of a well laid out line keeps the flushed lines well laid out, the
new one included. -/
theorem rounded_linesInv_flush (fl : ℚ → ℚ) (h : Host) (s : Rounded.Layout)
    (hline : Rounded.lineInv fl h s) (hs : Rounded.linesInv fl h s) :
    Rounded.linesInv fl h (Rounded.flush fl h s) := by
  obtain ⟨hflat, hall⟩ := hs
  obtain ⟨_, hhead, hchain, _, htail⟩ := hline
  refine ⟨?_, ?_⟩
  · rw [rounded_flush_display_list, rounded_flush_flushes, List.flatten_concat, ← hflat]
  · intro line hmem
    rw [rounded_flush_flushes, List.mem_append, List.mem_singleton] at hmem
    rcases hmem with hmem | hmem
    · exact hall line hmem
    · subst hmem
      refine ⟨?_, ?_, ?_⟩
      · rw [List.chain'_map]
        exact hchain
      · intro it hit
        rw [List.head?_map] at hit
        simp only [Option.mem_def, Option.map_eq_some'] at hit
        obtain ⟨entry, hentry, rfl⟩ := hit
        exact hhead entry hentry
      · intro it hit
        rw [← List.map_tail] at hit
        obtain ⟨entry, hentry, rfl⟩ := List.mem_map.mp hit
        exact htail entry hentry

theorem rounded_linesInv_textStep (fl : ℚ → ℚ) (h : Host) (font : Font) (s : Rounded.Layout)
    (word : String) (hline : Rounded.lineInv fl h s) (hs : Rounded.linesInv fl h s) :
    Rounded.linesInv fl h (Rounded.textStep fl h font s word) := by
  unfold Rounded.textStep
  by_cases hover : fl (s.cursor_x + h.measure font word) > fl (WIDTH - HSTEP)
  · simp only [hover, if_true]
    exact rounded_linesInv_flush fl h s hline hs
  · simp only [hover, if_false]
    exact hs

theorem rounded_linesInv_token (fl : ℚ → ℚ) (h : Host) (s : Rounded.Layout) (tok : Token)
    (hline : Rounded.lineInv fl h s) (hs : Rounded.linesInv fl h s) :
    Rounded.linesInv fl h (Rounded.token fl h s tok) := by
  cases tok with
  | Text t => exact rounded_linesInv_textStep fl h _ s t hline hs
  | Tag tag =>
    rcases rounded_token_tag_cases fl h s tag with hf | ⟨style, weight, size, hf⟩
    · rw [hf]; exact rounded_linesInv_flush fl h s hline hs
    · rw [hf]; exact hs

theorem rounded_inv_dispatchAll (fl : ℚ → ℚ) (h : Host) (s : Rounded.Layout)
    (toks : List Token) (hline : Rounded.lineInv fl h s) (hs : Rounded.linesInv fl h s) :
    Rounded.lineInv fl h (Rounded.dispatchAll fl h s toks)
      ∧ Rounded.linesInv fl h (Rounded.dispatchAll fl h s toks) := by
  induction toks generalizing s with
  | nil => exact ⟨hline, hs⟩
  | cons tok rest ih =>
    rw [rounded_dispatchAll_cons]
    exact ih _ (rounded_lineInv_token fl h s tok hline) (rounded_linesInv_token fl h s tok hline hs)

/-- When `layout` returns, the display list is the flushed lines one after the
other, and each of them is laid out left to right from `HSTEP`. -/
theorem rounded_linesInv_run (fl : ℚ → ℚ) (h : Host) (tokens : List Token) :
    Rounded.linesInv fl h ((Rounded.Layout.new tokens).run fl h) := by
  have hline0 : Rounded.lineInv fl h (Rounded.Layout.new tokens) :=
    rounded_lineInv_of_line_nil fl h _ rfl rfl
  have hs0 : Rounded.linesInv fl h (Rounded.Layout.new tokens) :=
    ⟨rfl, fun line hmem => absurd hmem (List.not_mem_nil line)⟩
  have hend := rounded_inv_dispatchAll fl h _ (Rounded.Layout.new tokens).tokens hline0 hs0
  exact rounded_linesInv_flush fl h _ hend.1 hend.2

/-- C18: horizontal advance. The display list returned by `layout` is the lines
appended by the calls of `flush` made during the run, one after the other;
within each line every item stands at the `x` of the item before it plus the
measured width of that item's word and of one space, both in that item's font
(added as the code adds them, in the engine's arithmetic), and the first item
of each line stands at `x = HSTEP`. -/
theorem layout_advance (fl : ℚ → ℚ) (h : Host) (tokens : List Token) :
    Rounded.layout fl h tokens = (Rounded.flushedLines fl h tokens).flatten
      ∧ ∀ line ∈ Rounded.flushedLines fl h tokens,
          line.Chain' (fun a b =>
              b.x = fl (a.x + fl (h.measure a.font a.word + h.measure a.font " ")))
            ∧ ∀ it ∈ line.head?, it.x = HSTEP := by
  have hinv := rounded_linesInv_run fl h tokens
  exact ⟨hinv.1, fun line hmem => ⟨(hinv.2 line hmem).1, (hinv.2 line hmem).2.1⟩⟩

/-- C19: of the lines appended by the calls of `flush` made during a run of
`layout`, which make up the display list, every item that is not the first of
its line satisfies `x + measure(word, font) ≤ WIDTH - HSTEP`, both sides
computed in the engine's arithmetic. -/
theorem layout_fits (fl : ℚ → ℚ) (h : Host) (tokens : List Token) :
    Rounded.layout fl h tokens = (Rounded.flushedLines fl h tokens).flatten
      ∧ ∀ line ∈ Rounded.flushedLines fl h tokens, ∀ it ∈ line.tail,
          fl (it.x + h.measure it.font it.word) ≤ fl (WIDTH - HSTEP) := by
  have hinv := rounded_linesInv_run fl h tokens
  exact ⟨hinv.1, fun line hmem => (hinv.2 line hmem).2.2⟩

/-! ## The rounding of the doubles at the numbers of a baseline -/

theorem roundHalfEven_of_lt (q : ℚ) (n : ℤ) (h1 : (n : ℚ) - 1 / 2 < q) (h2 : q < n + 1 / 2) :
    roundHalfEven q = n := by
  by_cases hq : (n : ℚ) ≤ q
  · have hfloor : ⌊q⌋ = n := Int.floor_eq_iff.mpr ⟨hq, by linarith⟩
    unfold roundHalfEven
    rw [hfloor, if_pos (by linarith)]
  · have hfloor : ⌊q⌋ = n - 1 :=
      Int.floor_eq_iff.mpr ⟨by push_cast; linarith, by push_cast; linarith⟩
    unfold roundHalfEven
    rw [hfloor, if_neg (by push_cast; linarith), if_pos (by push_cast; linarith)]
    ring

theorem roundHalfEven_tie_even (q : ℚ) (f : ℤ) (hq : q = f + 1 / 2) (he : f % 2 = 0) :
    roundHalfEven q = f := by
  have hfloor : ⌊q⌋ = f := Int.floor_eq_iff.mpr ⟨by linarith, by linarith⟩
  unfold roundHalfEven
  rw [hfloor, if_neg (by linarith), if_neg (by linarith), if_pos he]

theorem roundDouble_zero : roundDouble 0 = 0 := by
  simp [roundDouble]

/-- The double nearest to a number `q` between `2 ^ k` and `2 ^ (k + 1)`, in the
normal range: the integer nearest to `q / 2 ^ (k - 52)`, scaled back. -/
theorem roundDouble_eq_of (q : ℚ) (k n : ℤ) (hk : -1022 ≤ k) (hlo : (2 : ℚ) ^ k ≤ |q|)
    (hhi : |q| < (2 : ℚ) ^ (k + 1)) (hn : roundHalfEven (q / (2 : ℚ) ^ (k - 52)) = n) :
    roundDouble q = n * (2 : ℚ) ^ (k - 52) := by
  have hpos : 0 < |q| := lt_of_lt_of_le (by positivity) hlo
  have hq : q ≠ 0 := abs_pos.mp hpos
  have hlog : Int.log 2 |q| = k := by
    apply le_antisymm
    · have h := (Int.lt_zpow_iff_log_lt (b := 2) (by norm_num) hpos).mp (by exact_mod_cast hhi)
      omega
    · exact (Int.zpow_le_iff_le_log (b := 2) (by norm_num) hpos).mp (by exact_mod_cast hlo)
  unfold roundDouble
  rw [if_neg hq, hlog, max_eq_left (by omega), hn]

/-- The literal `1.2` is the double `5404319552844595 / 2 ^ 52`. -/
theorem roundDouble_six_fifths : roundDouble (6 / 5) = 5404319552844595 / 4503599627370496 := by
  have h := roundDouble_eq_of (6 / 5) 0 5404319552844595 (by norm_num)
    (by rw [abs_of_pos (by norm_num)]; norm_num)
    (by rw [abs_of_pos (by norm_num)]; norm_num)
    (roundHalfEven_of_lt _ _ (by norm_num) (by norm_num))
  rw [h]; norm_num

theorem roundDouble_eighteen : roundDouble 18 = 18 := by
  have h := roundDouble_eq_of 18 4 (18 * 2 ^ 48) (by norm_num)
    (by rw [abs_of_pos (by norm_num)]; norm_num)
    (by rw [abs_of_pos (by norm_num)]; norm_num)
    (roundHalfEven_of_lt _ _ (by norm_num) (by norm_num))
  rw [h]; norm_num

/-- In doubles `1.2 * 9` is `6079859496950169 / 2 ^ 49`, just below 10.8. -/
theorem roundDouble_times_nine :
    roundDouble (5404319552844595 / 4503599627370496 * 9)
      = 6079859496950169 / 562949953421312 := by
  have h := roundDouble_eq_of (5404319552844595 / 4503599627370496 * 9) 3 6079859496950169
    (by norm_num)
    (by rw [abs_of_pos (by norm_num)]; norm_num)
    (by rw [abs_of_pos (by norm_num)]; norm_num)
    (roundHalfEven_of_lt _ _ (by norm_num) (by norm_num))
  rw [h]; norm_num

/-- In doubles `18 + 1.2 * 9` is `2026619832316723 / 2 ^ 46`, which prints as
28.799999999999997: the exact sum lies half way between two doubles. -/
theorem roundDouble_plus_eighteen :
    roundDouble (18 + 6079859496950169 / 562949953421312)
      = 2026619832316723 / 70368744177664 := by
  have h := roundDouble_eq_of (18 + 6079859496950169 / 562949953421312) 4 8106479329266892
    (by norm_num)
    (by rw [abs_of_pos (by norm_num)]; norm_num)
    (by rw [abs_of_pos (by norm_num)]; norm_num)
    (roundHalfEven_tie_even _ _ (by norm_num) (by norm_num))
  rw [h]; norm_num

/-! ## The baseline under rounding -/

/-- The items that `flush` appends in `oneWordState`: the one word, at the baseline. -/
theorem flush_oneWordState (fl : ℚ → ℚ) (h : Host) :
    (Rounded.flush fl h oneWordState).display_list.drop oneWordState.display_list.length
      = [{ x := HSTEP, y := fl (18 + fl (fl (6 / 5) * max 0 (h.metrics plainFont).ascent)),
           word := "hi", font := plainFont }] := by
  have hmax : maxAscentLoop 0 [h.metrics plainFont] = max 0 (h.metrics plainFont).ascent := by
    rw [maxAscentLoop_eq]; rfl
  rw [rounded_flush_display_list, List.drop_left]
  simp only [oneWordState, Rounded.flushBaseline, Rounded.Layout.new, List.map_cons, List.map_nil,
    hmax, VSTEP]

/-- C3, as stated, fails in two ways. With ascent -5 the item flushed from
`oneWordState` has `y = 18`, not `18 + 1.2 * (-5) = 12`: the maximum starts
from 0. With ascent 9 the engine's doubles give `y = 2026619832316723 / 2 ^ 46`
(28.799999999999997), not the exact `18 + 1.2 * 9 = 144 / 5`. -/
theorem flush_y_not_exact :
    oneWordState.line ≠ []
      ∧ (∃ it ∈ (Rounded.flush roundDouble sunkHost oneWordState).display_list.drop
            oneWordState.display_list.length,
          it.y = 18
            ∧ oneWordState.cursor_y + 6 / 5 * maxOf 0 (lineAscents sunkHost oneWordState.line) = 12
            ∧ it.y ≠ oneWordState.cursor_y
                + 6 / 5 * maxOf 0 (lineAscents sunkHost oneWordState.line))
      ∧ (∃ it ∈ (Rounded.flush roundDouble nineHost oneWordState).display_list.drop
            oneWordState.display_list.length,
          it.y = 2026619832316723 / 70368744177664
            ∧ oneWordState.cursor_y + 6 / 5 * maxOf 0 (lineAscents nineHost oneWordState.line)
                = 144 / 5
            ∧ it.y ≠ oneWordState.cursor_y
                + 6 / 5 * maxOf 0 (lineAscents nineHost oneWordState.line)) := by
  have hsunk : oneWordState.cursor_y
      + 6 / 5 * maxOf 0 (lineAscents sunkHost oneWordState.line) = 12 := by
    norm_num [oneWordState, Rounded.Layout.new, maxOf, lineAscents, sunkHost, VSTEP]
  have hnine : oneWordState.cursor_y
      + 6 / 5 * maxOf 0 (lineAscents nineHost oneWordState.line) = 144 / 5 := by
    norm_num [oneWordState, Rounded.Layout.new, maxOf, lineAscents, nineHost, VSTEP]
  have hy1 : roundDouble (18 + roundDouble (roundDouble (6 / 5)
      * max 0 (sunkHost.metrics plainFont).ascent)) = 18 := by
    have hm : max (0 : ℚ) (sunkHost.metrics plainFont).ascent = 0 := by
      norm_num [sunkHost]
    rw [hm, mul_zero, roundDouble_zero, add_zero, roundDouble_eighteen]
  have hy2 : roundDouble (18 + roundDouble (roundDouble (6 / 5)
      * max 0 (nineHost.metrics plainFont).ascent)) = 2026619832316723 / 70368744177664 := by
    have hm : max (0 : ℚ) (nineHost.metrics plainFont).ascent = 9 := by
      norm_num [nineHost]
    rw [hm, roundDouble_six_fifths, roundDouble_times_nine, roundDouble_plus_eighteen]
  refine ⟨by simp [oneWordState], ?_, ?_⟩
  · refine ⟨{ x := HSTEP,
              y := roundDouble (18 + roundDouble (roundDouble (6 / 5)
                * max 0 (sunkHost.metrics plainFont).ascent)),
              word := "hi", font := plainFont }, ?_, hy1, hsunk, ?_⟩
    · rw [flush_oneWordState]; exact List.mem_singleton.mpr rfl
    · rw [hsunk]; simp only [hy1]; norm_num
  · refine ⟨{ x := HSTEP,
              y := roundDouble (18 + roundDouble (roundDouble (6 / 5)
                * max 0 (nineHost.metrics plainFont).ascent)),
              word := "hi", font := plainFont }, ?_, hy2, hnine, ?_⟩
    · rw [flush_oneWordState]; exact List.mem_singleton.mpr rfl
    · rw [hnine]; simp only [hy2]; norm_num

/-- C3, amended: for every layout state whose line is non-empty and every host,
each DisplayItem appended by `flush` has
`y = cursor_y + 1.2 * max(0, maximum ascent of the line's fonts)`, where
`cursor_y` is the value before the flush, `1.2` is the engine's literal, and
the product and the sum are rounded as the engine rounds them. -/
theorem flush_y (fl : ℚ → ℚ) (h : Host) (s : Rounded.Layout) (_hline : s.line ≠ []) :
    ∀ it ∈ (Rounded.flush fl h s).display_list.drop s.display_list.length,
      it.y = fl (s.cursor_y + fl (fl (6 / 5) * max 0 (maxOf 0 (lineAscents h s.line)))) := by
  intro it hit
  rw [rounded_flush_display_list, List.drop_left] at hit
  obtain ⟨entry, _, rfl⟩ := List.mem_map.mp hit
  simp only [Rounded.flushBaseline, maxAscentLoop_zero]

/-- C3 (amended) in doubles at `oneWordState` with ascent 9: the flushed item
has `y = 2026619832316723 / 2 ^ 46`. -/
theorem flush_y_witness :
    oneWordState.line ≠ []
      ∧ ∀ it ∈ (Rounded.flush roundDouble nineHost oneWordState).display_list.drop
            oneWordState.display_list.length,
          it.y = 2026619832316723 / 70368744177664 := by
  have hval : roundDouble (oneWordState.cursor_y + roundDouble (roundDouble (6 / 5)
      * max 0 (maxOf 0 (lineAscents nineHost oneWordState.line))))
      = 2026619832316723 / 70368744177664 := by
    have hm : max (0 : ℚ) (maxOf 0 (lineAscents nineHost oneWordState.line)) = 9 := by
      norm_num [oneWordState, Rounded.Layout.new, maxOf, lineAscents, nineHost]
    have hc : oneWordState.cursor_y = 18 := rfl
    rw [hm, hc, roundDouble_six_fifths, roundDouble_times_nine, roundDouble_plus_eighteen]
  refine ⟨by simp [oneWordState], ?_⟩
  intro it hit
  rw [← hval]
  exact flush_y roundDouble nineHost oneWordState (by simp [oneWordState]) it hit

/-! ## The rounded methods without rounding are the exact methods -/

theorem rounded_flush_erase (h : Host) (s : Rounded.Layout) :
    (Rounded.flush (fun x => x) h s).erase = flush h s.erase := by
  rw [rounded_flush_eq, flush_eq]
  rfl

theorem rounded_textStep_erase (h : Host) (font : Font) (s : Rounded.Layout) (word : String) :
    (Rounded.textStep (fun x => x) h font s word).erase = textStep h font s.erase word := by
  unfold Rounded.textStep textStep
  have hx : s.erase.cursor_x = s.cursor_x := rfl
  by_cases hover : s.cursor_x + h.measure font word > WIDTH - HSTEP
  · simp only [hx, hover, if_true]
    rw [← rounded_flush_erase]
    rfl
  · simp only [hx, hover, if_false]
    rfl

theorem rounded_token_erase (h : Host) (s : Rounded.Layout) (tok : Token) :
    (Rounded.token (fun x => x) h s tok).erase = token h s.erase tok := by
  cases tok with
  | Text t => exact rounded_textStep_erase h _ s t
  | Tag tag =>
    rw [rounded_token_tag, token_tag]
    by_cases h1 : tag = "i"
    · rw [if_pos h1, if_pos h1]; rfl
    rw [if_neg h1, if_neg h1]
    by_cases h2 : tag = "/i"
    · rw [if_pos h2, if_pos h2]; rfl
    rw [if_neg h2, if_neg h2]
    by_cases h3 : tag = "b"
    · rw [if_pos h3, if_pos h3]; rfl
    rw [if_neg h3, if_neg h3]
    by_cases h4 : tag = "/b"
    · rw [if_pos h4, if_pos h4]; rfl
    rw [if_neg h4, if_neg h4]
    by_cases h5 : tag = "small"
    · rw [if_pos h5, if_pos h5]; rfl
    rw [if_neg h5, if_neg h5]
    by_cases h6 : tag = "/small"
    · rw [if_pos h6, if_pos h6]; rfl
    rw [if_neg h6, if_neg h6]
    by_cases h7 : tag = "big"
    · rw [if_pos h7, if_pos h7]; rfl
    rw [if_neg h7, if_neg h7]
    by_cases h8 : tag = "/big"
    · rw [if_pos h8, if_pos h8]; rfl
    rw [if_neg h8, if_neg h8]
    by_cases h9 : tag = "br"
    · rw [if_pos h9, if_pos h9]; exact rounded_flush_erase h s
    rw [if_neg h9, if_neg h9]
    by_cases h10 : tag = "/p"
    · rw [if_pos h10, if_pos h10]; exact rounded_flush_erase h s
    rw [if_neg h10, if_neg h10]

theorem rounded_dispatchAll_erase (h : Host) (s : Rounded.Layout) (toks : List Token) :
    (Rounded.dispatchAll (fun x => x) h s toks).erase = dispatchAll h s.erase toks := by
  induction toks generalizing s with
  | nil => rfl
  | cons tok rest ih =>
    rw [rounded_dispatchAll_cons, dispatchAll_cons, ih, rounded_token_erase]

/-- With the identity for rounding, the rounded `layout` returns the display
list of the exact `layout`: the two embeddings differ by the rounding alone,
and the ghost field changes nothing. -/
theorem rounded_layout_exact (h : Host) (tokens : List Token) :
    Rounded.layout (fun x => x) h tokens = layout h tokens := by
  have hrun : ((Rounded.Layout.new tokens).run (fun x => x) h).erase
      = flush h (dispatchAll h (Layout.new tokens) tokens) := by
    unfold Rounded.Layout.run
    rw [rounded_flush_erase, rounded_dispatchAll_erase]
    rfl
  exact congrArg Layout.display_list hrun

/-! ## End to end at 50 per character, in doubles -/

/-- A whole number between `2 ^ k` and `2 ^ (k + 1)`, `k ≤ 52`, is a double. -/
theorem roundDouble_whole (n : ℚ) (m k : ℕ) (hm : n = m) (hk : k ≤ 52) (hlo : 2 ^ k ≤ m)
    (hhi : m < 2 ^ (k + 1)) : roundDouble n = n := by
  subst hm
  have hz : (2 : ℚ) ^ ((k : ℤ) - 52) = ((2 : ℚ) ^ (52 - k))⁻¹ := by
    rw [← zpow_natCast, ← zpow_neg]
    congr 1
    omega
  have hpow : (2 : ℚ) ^ (52 - k) ≠ 0 := by positivity
  have h := roundDouble_eq_of (m : ℚ) (k : ℤ) ((m : ℤ) * 2 ^ (52 - k)) (by omega)
    (by rw [abs_of_nonneg (by positivity), zpow_natCast]; exact_mod_cast hlo)
    (by
      rw [abs_of_nonneg (by positivity)]
      have : ((k : ℤ) + 1) = ((k + 1 : ℕ) : ℤ) := by push_cast; ring
      rw [this, zpow_natCast]
      exact_mod_cast hhi)
    (by
      apply roundHalfEven_of_lt
      · rw [hz, div_inv_eq_mul]; push_cast; linarith
      · rw [hz, div_inv_eq_mul]; push_cast; linarith)
  rw [h, hz]
  push_cast
  field_simp

/-- In doubles `1.2 * 10` is 12. -/
theorem roundDouble_times_ten : roundDouble (roundDouble (6 / 5) * 10) = 12 := by
  rw [roundDouble_six_fifths]
  have h := roundDouble_eq_of (5404319552844595 / 4503599627370496 * 10) 3 6755399441055744
    (by norm_num)
    (by rw [abs_of_pos (by norm_num)]; norm_num)
    (by rw [abs_of_pos (by norm_num)]; norm_num)
    (roundHalfEven_of_lt _ _ (by norm_num) (by norm_num))
  rw [h]; norm_num

/-- In doubles `1.2 * 5` is 6. -/
theorem roundDouble_times_five : roundDouble (roundDouble (6 / 5) * 5) = 6 := by
  rw [roundDouble_six_fifths]
  have h := roundDouble_eq_of (5404319552844595 / 4503599627370496 * 5) 2 6755399441055744
    (by norm_num)
    (by rw [abs_of_pos (by norm_num)]; norm_num)
    (by rw [abs_of_pos (by norm_num)]; norm_num)
    (roundHalfEven_of_lt _ _ (by norm_num) (by norm_num))
  rw [h]; norm_num

theorem rounded_text_eq_token (fl : ℚ → ℚ) (h : Host) (s : Rounded.Layout) (t : String) :
    Rounded.token fl h s (Token.Text t)
      = Rounded.textStep fl h { size := s.size, weight := s.weight, style := s.style } s t :=
  rfl

theorem rounded_textStep_of_fits (fl : ℚ → ℚ) (h : Host) (font : Font) (s : Rounded.Layout)
    (word : String) (hfit : fl (s.cursor_x + h.measure font word) ≤ fl (WIDTH - HSTEP)) :
    Rounded.textStep fl h font s word
      = { s with
          line := s.line ++ [{ x := s.cursor_x, word := word, font := font }]
          cursor_x := fl (s.cursor_x + fl (h.measure font word + h.measure font " ")) } := by
  unfold Rounded.textStep
  simp only [gt_iff_lt, not_lt.mpr hfit, if_false]

theorem rounded_textStep_of_overflow (fl : ℚ → ℚ) (h : Host) (font : Font)
    (s : Rounded.Layout) (word : String)
    (hover : fl (s.cursor_x + h.measure font word) > fl (WIDTH - HSTEP)) :
    Rounded.textStep fl h font s word
      = { Rounded.flush fl h s with
          line := (Rounded.flush fl h s).line
            ++ [{ x := (Rounded.flush fl h s).cursor_x, word := word, font := font }]
          cursor_x := fl ((Rounded.flush fl h s).cursor_x
            + fl (h.measure font word + h.measure font " ")) } := by
  unfold Rounded.textStep
  simp only [hover, if_true]

/-- C14: under a host that measures every character 50 wide, the words `Bold`,
`and`, `italic` fit on one line of width 800 (they end at 206, 406 and 756),
yet `lex` then `layout` on `<b>Bold</b> and <i>italic</i>`, computed in doubles,
puts `italic` on a second line: the unsplit text `" and "` is measured 250
wide, so `italic` would end at 856. The baselines are 30, 30 and 48. -/
theorem load_bold_and_italic_two_lines :
    fitsFrom fiftyHost HSTEP [(boldFont, "Bold"), (plainFont, "and"), (italicFont, "italic")]
      ∧ Rounded.layout roundDouble fiftyHost (lex "<b>Bold</b> and <i>italic</i>")
          = [{ x := 6, y := 30, word := "Bold", font := boldFont },
             { x := 256, y := 30, word := " and ", font := plainFont },
             { x := 6, y := 48, word := "italic", font := italicFont }] := by
  have hBold : ("Bold" : String).length = 4 := by decide
  have hand : ("and" : String).length = 3 := by decide
  have hAnd : (" and " : String).length = 5 := by decide
  have hitalic : ("italic" : String).length = 6 := by decide
  have hsp : (" " : String).length = 1 := by decide
  have hm : ∀ (f : Font) (t : String), fiftyHost.measure f t = 50 * (t.length : ℚ) :=
    fun _ _ => rfl
  have hmet : ∀ f : Font, fiftyHost.metrics f = { ascent := 10, descent := 5 } := fun _ => rfl
  have r794 : roundDouble 794 = 794 :=
    roundDouble_whole 794 794 9 (by norm_num) (by norm_num) (by norm_num) (by norm_num)
  have r206 : roundDouble 206 = 206 :=
    roundDouble_whole 206 206 7 (by norm_num) (by norm_num) (by norm_num) (by norm_num)
  have r250 : roundDouble 250 = 250 :=
    roundDouble_whole 250 250 7 (by norm_num) (by norm_num) (by norm_num) (by norm_num)
  have r256 : roundDouble 256 = 256 :=
    roundDouble_whole 256 256 8 (by norm_num) (by norm_num) (by norm_num) (by norm_num)
  have r506 : roundDouble 506 = 506 :=
    roundDouble_whole 506 506 8 (by norm_num) (by norm_num) (by norm_num) (by norm_num)
  have r300 : roundDouble 300 = 300 :=
    roundDouble_whole 300 300 8 (by norm_num) (by norm_num) (by norm_num) (by norm_num)
  have r556 : roundDouble 556 = 556 :=
    roundDouble_whole 556 556 9 (by norm_num) (by norm_num) (by norm_num) (by norm_num)
  have r856 : roundDouble 856 = 856 :=
    roundDouble_whole 856 856 9 (by norm_num) (by norm_num) (by norm_num) (by norm_num)
  have r350 : roundDouble 350 = 350 :=
    roundDouble_whole 350 350 8 (by norm_num) (by norm_num) (by norm_num) (by norm_num)
  have r356 : roundDouble 356 = 356 :=
    roundDouble_whole 356 356 8 (by norm_num) (by norm_num) (by norm_num) (by norm_num)
  have r30 : roundDouble 30 = 30 :=
    roundDouble_whole 30 30 4 (by norm_num) (by norm_num) (by norm_num) (by norm_num)
  have r36 : roundDouble 36 = 36 :=
    roundDouble_whole 36 36 5 (by norm_num) (by norm_num) (by norm_num) (by norm_num)
  have r48 : roundDouble 48 = 48 :=
    roundDouble_whole 48 48 5 (by norm_num) (by norm_num) (by norm_num) (by norm_num)
  have hbudget : roundDouble (WIDTH - HSTEP) = 794 := by
    have : WIDTH - HSTEP = 794 := by norm_num [WIDTH, HSTEP]
    rw [this, r794]
  have h12 := roundDouble_times_ten
  have h6 := roundDouble_times_five
  constructor
  · simp only [fitsFrom, hm, hBold, hand, hitalic, hsp, HSTEP, WIDTH]
    norm_num
  have e1 : Rounded.token roundDouble fiftyHost (Rounded.Layout.new boldAndItalic) (Token.Tag "b")
      = { tokens := boldAndItalic, display_list := [], cursor_x := 6, cursor_y := 18, weight := "bold",
          style := "normal", size := 16, line := [], flushes := [] } := by
    simp [Rounded.token, Rounded.Layout.new, HSTEP, VSTEP]
  have e2 : Rounded.token roundDouble fiftyHost
        { tokens := boldAndItalic, display_list := [], cursor_x := 6, cursor_y := 18, weight := "bold",
          style := "normal", size := 16, line := [], flushes := [] } (Token.Text "Bold")
      = { tokens := boldAndItalic, display_list := [], cursor_x := 256, cursor_y := 18, weight := "bold",
          style := "normal", size := 16,
          line := [{ x := 6, word := "Bold", font := boldFont }], flushes := [] } := by
    rw [rounded_text_eq_token, rounded_textStep_of_fits _ _ _ _ _
      (by rw [hbudget]; simp only [hm, hBold]; norm_num [r206])]
    simp only [hm, hBold, hsp, List.nil_append]
    norm_num [r250, r256]
    rfl
  have e3 : Rounded.token roundDouble fiftyHost
        { tokens := boldAndItalic, display_list := [], cursor_x := 256, cursor_y := 18, weight := "bold",
          style := "normal", size := 16,
          line := [{ x := 6, word := "Bold", font := boldFont }], flushes := [] }
        (Token.Tag "/b")
      = { tokens := boldAndItalic, display_list := [], cursor_x := 256, cursor_y := 18, weight := "normal",
          style := "normal", size := 16,
          line := [{ x := 6, word := "Bold", font := boldFont }], flushes := [] } := by
    simp [Rounded.token]
  have e4 : Rounded.token roundDouble fiftyHost
        { tokens := boldAndItalic, display_list := [], cursor_x := 256, cursor_y := 18, weight := "normal",
          style := "normal", size := 16,
          line := [{ x := 6, word := "Bold", font := boldFont }], flushes := [] }
        (Token.Text " and ")
      = { tokens := boldAndItalic, display_list := [], cursor_x := 556, cursor_y := 18, weight := "normal",
          style := "normal", size := 16,
          line := [{ x := 6, word := "Bold", font := boldFont },
                   { x := 256, word := " and ", font := plainFont }], flushes := [] } := by
    rw [rounded_text_eq_token, rounded_textStep_of_fits _ _ _ _ _
      (by rw [hbudget]; simp only [hm, hAnd]; norm_num [r506])]
    simp only [hm, hAnd, hsp, List.cons_append, List.nil_append]
    norm_num [r300, r556]
    rfl
  have e5 : Rounded.token roundDouble fiftyHost
        { tokens := boldAndItalic, display_list := [], cursor_x := 556, cursor_y := 18, weight := "normal",
          style := "normal", size := 16,
          line := [{ x := 6, word := "Bold", font := boldFont },
                   { x := 256, word := " and ", font := plainFont }], flushes := [] }
        (Token.Tag "i")
      = { tokens := boldAndItalic, display_list := [], cursor_x := 556, cursor_y := 18, weight := "normal",
          style := "italic", size := 16,
          line := [{ x := 6, word := "Bold", font := boldFont },
                   { x := 256, word := " and ", font := plainFont }], flushes := [] } := by
    simp [Rounded.token]
  have e6 : Rounded.token roundDouble fiftyHost
        { tokens := boldAndItalic, display_list := [], cursor_x := 556, cursor_y := 18, weight := "normal",
          style := "italic", size := 16,
          line := [{ x := 6, word := "Bold", font := boldFont },
                   { x := 256, word := " and ", font := plainFont }], flushes := [] }
        (Token.Text "italic")
      = { tokens := boldAndItalic,
          display_list := [{ x := 6, y := 30, word := "Bold", font := boldFont },
                           { x := 256, y := 30, word := " and ", font := plainFont }],
          cursor_x := 356, cursor_y := 36, weight := "normal", style := "italic", size := 16,
          line := [{ x := 6, word := "italic", font := italicFont }],
          flushes := [[{ x := 6, y := 30, word := "Bold", font := boldFont },
                       { x := 256, y := 30, word := " and ", font := plainFont }]] } := by
    rw [rounded_text_eq_token, rounded_textStep_of_overflow _ _ _ _ _
      (by rw [hbudget]; simp only [hm, hitalic]; norm_num [r856]), rounded_flush_eq]
    simp only [hm, hmet, hitalic, hsp, Rounded.flushBaseline, maxAscentLoop, maxDescentLoop,
      List.map_cons, List.map_nil, List.foldl_cons, List.foldl_nil, List.nil_append, HSTEP]
    norm_num [h12, h6, r30, r36, r350, r356]
    rfl
  have e7 : Rounded.token roundDouble fiftyHost
        { tokens := boldAndItalic,
          display_list := [{ x := 6, y := 30, word := "Bold", font := boldFont },
                           { x := 256, y := 30, word := " and ", font := plainFont }],
          cursor_x := 356, cursor_y := 36, weight := "normal", style := "italic", size := 16,
          line := [{ x := 6, word := "italic", font := italicFont }],
          flushes := [[{ x := 6, y := 30, word := "Bold", font := boldFont },
                       { x := 256, y := 30, word := " and ", font := plainFont }]] }
        (Token.Tag "/i")
      = { tokens := boldAndItalic,
          display_list := [{ x := 6, y := 30, word := "Bold", font := boldFont },
                           { x := 256, y := 30, word := " and ", font := plainFont }],
          cursor_x := 356, cursor_y := 36, weight := "normal", style := "normal", size := 16,
          line := [{ x := 6, word := "italic", font := italicFont }],
          flushes := [[{ x := 6, y := 30, word := "Bold", font := boldFont },
                       { x := 256, y := 30, word := " and ", font := plainFont }]] } := by
    simp [Rounded.token]
  have htok : (Rounded.Layout.new boldAndItalic).tokens = boldAndItalic := rfl
  have hrun : Rounded.dispatchAll roundDouble fiftyHost (Rounded.Layout.new boldAndItalic)
      boldAndItalic
      = { tokens := boldAndItalic,
          display_list := [{ x := 6, y := 30, word := "Bold", font := boldFont },
                           { x := 256, y := 30, word := " and ", font := plainFont }],
          cursor_x := 356, cursor_y := 36, weight := "normal", style := "normal", size := 16,
          line := [{ x := 6, word := "italic", font := italicFont }],
          flushes := [[{ x := 6, y := 30, word := "Bold", font := boldFont },
                       { x := 256, y := 30, word := " and ", font := plainFont }]] } := by
    have hfold : Rounded.dispatchAll roundDouble fiftyHost (Rounded.Layout.new boldAndItalic)
        boldAndItalic
        = Rounded.token roundDouble fiftyHost
            (Rounded.token roundDouble fiftyHost
              (Rounded.token roundDouble fiftyHost
                (Rounded.token roundDouble fiftyHost
                  (Rounded.token roundDouble fiftyHost
                    (Rounded.token roundDouble fiftyHost
                      (Rounded.token roundDouble fiftyHost (Rounded.Layout.new boldAndItalic)
                        (Token.Tag "b"))
                      (Token.Text "Bold"))
                    (Token.Tag "/b"))
                  (Token.Text " and "))
                (Token.Tag "i"))
              (Token.Text "italic"))
            (Token.Tag "/i") := rfl
    rw [hfold, e1, e2, e3, e4, e5, e6, e7]
  rw [lex_boldAndItalic]
  unfold Rounded.layout Rounded.Layout.run
  rw [htok, hrun, rounded_flush_display_list]
  simp only [Rounded.flushBaseline, hmet, maxAscentLoop, List.map_cons, List.map_nil,
    List.foldl_cons, List.foldl_nil]
  norm_num [h12, r48]

end Emberfox
